import Mathlib

/-!
FlipB/sftp-server: path confinement, filesystem gateway, session ownership

A shallow embedding of `internal/srv` (`handler.go`, `fs_impl.go`,
`fs_adapter.go`, `fs_session.go`, and from `srv.go` the credential check and
the sequential start of `ServeSocket`) and of `plaintextToHash` in
`cmd/server/main.go`.

* Go strings are byte strings; a path is a `List Char`.
* `path/filepath` (`IsAbs`, `Clean`, `Join`, `Base`), `strings.HasPrefix` and
  `os.IsNotExist` belong to the Go standard library; they are modelled here
  after their documented Unix behaviour.
* The host filesystem (package `os`) is a record of state transformers over
  an arbitrary disk state `σ`.  Every call that `fsImpl` makes to package
  `os` is appended to a call log, so that "no host call was made" can be
  stated.  Calls to the logger (`fmt.Printf`) are not modelled.
* The digest of `crypto/sha256` and `ssh.ParsePrivateKey` are parameters of
  the definitions that use them.
* A Go function returning `(T, error)` returns `Except Error T`; a function
  returning only `error` returns `Option Error` (`none` is `nil`).  The path
  sanitizer keeps Go's pair, because its first component is used by callers
  even when the second is an error.
-/

namespace SftpServer

/-! ## Paths (`path/filepath`, Unix) -/

abbrev Path := List Char

/-- The pieces of a path between `/` separators, empty pieces included. -/
def splitSep : Path → List Path
  | [] => [[]]
  | c :: cs =>
    if c = '/' then [] :: splitSep cs
    else match splitSep cs with
      | [] => [[c]]
      | x :: xs => (c :: x) :: xs

/-- Path elements joined with a single `/` between them. -/
def joinSep : List Path → Path
  | [] => []
  | [e] => e
  | e :: es => e ++ '/' :: joinSep es

/-- Go `filepath.IsAbs` on Unix: the path starts with `/`. -/
def IsAbs (path : Path) : Bool := path.head? = some '/'

/-- Go `strings.HasPrefix`. -/
def HasPrefix (s pre : Path) : Bool := pre.isPrefixOf s

/-- One element of the `filepath.Clean` scan; `out` is the stack of kept
elements, last one first.  Empty and `.` elements are dropped; `..` removes
the preceding non-`..` element, is dropped at the top of a rooted path, and
is kept at the start of a relative one. -/
def cleanStep (rooted : Bool) (out : List Path) (el : Path) : List Path :=
  if el = [] ∨ el = ['.'] then out
  else if el = ['.', '.'] then
    match out with
    | [] => if rooted then [] else [el]
    | top :: rest => if top = ['.', '.'] then el :: out else rest
  else el :: out

/-- The kept elements of a path, in order. -/
def cleanElems (rooted : Bool) (path : Path) : List Path :=
  ((splitSep path).foldl (cleanStep rooted) []).reverse

/-- Go `filepath.Clean` on Unix. -/
def Clean (path : Path) : Path :=
  if path = [] then ['.']
  else if IsAbs path then '/' :: joinSep (cleanElems true path)
  else if cleanElems false path = [] then ['.']
  else joinSep (cleanElems false path)

/-- Go `filepath.Join` of two elements: empty elements are ignored, the
rest is joined with `/` and cleaned. -/
def Join (a b : Path) : Path :=
  if a = [] then (if b = [] then [] else Clean b)
  else Clean (a ++ '/' :: b)

/-- Go `filepath.Base` on Unix. -/
def Base (path : Path) : Path :=
  if path = [] then ['.']
  else match ((splitSep path).filter (fun e => e ≠ [])).getLast? with
    | none => ['/']
    | some e => e

/-! ## Errors -/

inductive Error where
  | ErrInvalid
  | ErrPermission
  | ErrExist
  | ErrNotExist
  | errno (code : Nat)
  | pathError (op : String) (path : Path) (err : Error)
  | linkError (op : String) (old new : Path) (err : Error)
  | invalidFilePath (orgPath : Path)
  | wrapped (msg : String) (err : Error)
  | unsupported
  | EOF
  | message (msg : String)
  deriving DecidableEq, Repr

def ENOENT : Nat := 2
def EEXIST : Nat := 17
def EINVAL : Nat := 22

/-- Go `os.underlyingError`: unwraps one `*PathError` or `*LinkError`. -/
def underlyingError : Error → Error
  | .pathError _ _ e => e
  | .linkError _ _ _ e => e
  | e => e

/-- Go `os.IsNotExist` on a non-nil error. -/
def IsNotExist (err : Error) : Bool :=
  match underlyingError err with
  | .ErrNotExist => true
  | .errno c => c = ENOENT
  | _ => false

/-! ## Open flags -/

/-- The `sftp.FileOpenFlags` record of `github.com/pkg/sftp`. -/
structure FileOpenFlags where
  Read : Bool := false
  Write : Bool := false
  Append : Bool := false
  Creat : Bool := false
  Trunc : Bool := false
  Excl : Bool := false
  deriving DecidableEq, Repr

def O_RDONLY : Nat := 0
def O_WRONLY : Nat := 1
def O_RDWR : Nat := 2
def O_CREATE : Nat := 64
def O_EXCL : Nat := 128
def O_TRUNC : Nat := 512
def O_APPEND : Nat := 1024

/-- The mask of the access mode (`syscall.O_ACCMODE`). -/
def O_ACCMODE : Nat := 3

def osOpenFlags (pflags : FileOpenFlags) : Nat :=
  let osFlags := 0
  let osFlags := if pflags.Append then osFlags ||| O_APPEND else osFlags
  let osFlags := if pflags.Creat then osFlags ||| O_CREATE else osFlags
  let osFlags := if pflags.Excl then osFlags ||| O_EXCL else osFlags
  let osFlags :=
    if pflags.Read && pflags.Write then osFlags ||| O_RDWR
    else if pflags.Read then osFlags ||| O_RDONLY
    else if pflags.Write then osFlags ||| O_WRONLY
    else osFlags
  let osFlags := if pflags.Trunc then osFlags ||| O_TRUNC else osFlags
  osFlags

/-! ## The host filesystem (package `os`) -/

/-- An open file (`*os.File`), known by the name it was opened with. -/
structure File where
  name : Path
  deriving DecidableEq, Repr

structure FileInfo where
  Name : Path
  IsDir : Bool := false
  Size : Nat := 0
  Mode : Nat := 0
  deriving DecidableEq, Repr

/-- The calls of package `os` that `fsImpl` and `fsSession` make. -/
structure Host (σ : Type) where
  OpenFile : Path → Nat → Nat → σ → Except Error File × σ
  Stat : Path → σ → Except Error FileInfo × σ
  Readlink : Path → σ → Except Error Path × σ
  Rename : Path → Path → σ → Option Error × σ
  Remove : Path → σ → Option Error × σ
  Mkdir : Path → Nat → σ → Option Error × σ
  Link : Path → Path → σ → Option Error × σ
  Symlink : Path → Path → σ → Option Error × σ
  Readdir : File → Int → σ → Except Error (List FileInfo) × σ
  Truncate : File → Int → σ → Option Error × σ

inductive HostCall where
  | OpenFile (path : Path) (flags perm : Nat)
  | Stat (path : Path)
  | Readlink (path : Path)
  | Rename (oldpath newpath : Path)
  | Remove (path : Path)
  | Mkdir (path : Path) (perm : Nat)
  | Link (oldname newname : Path)
  | Symlink (oldname newname : Path)
  | Readdir (file : File) (n : Int)
  | Truncate (file : File) (size : Int)
  deriving DecidableEq, Repr

/-- The disk together with the log of host calls made so far. -/
structure World (σ : Type) where
  disk : σ
  calls : List HostCall

/-- A host call: run it on the disk and append it to the log. -/
def hostCall {σ α : Type} (c : HostCall) (f : σ → α × σ) (w : World σ) : α × World σ :=
  ((f w.disk).1, ⟨(f w.disk).2, w.calls ++ [c]⟩)

/-! ## `fs_impl.go`: the gateway over package `os` -/

/-- The `fsImpl` record; `sanitizer` may be nil. The logger is left out. -/
structure fsImpl where
  sanitizer : Option (Path → Path × Option Error)

def fsImpl.sanitize (fs : fsImpl) (prevErr : Option Error) (path : Path) : Path × Option Error :=
  match prevErr with
  | some e => ([], some e)
  | none =>
    match fs.sanitizer with
    | none => (path, none)
    | some f => f path

def fsImpl.OpenFile {σ : Type} (os : Host σ) (fs : fsImpl) (path : Path) (flags perm : Nat)
    (w : World σ) : Except Error File × World σ :=
  match fs.sanitize none path with
  | (_, some err) => (.error err, w)
  | (path, none) => hostCall (.OpenFile path flags perm) (os.OpenFile path flags perm) w

def fsImpl.Stat {σ : Type} (os : Host σ) (fs : fsImpl) (path : Path) (w : World σ) :
    Except Error FileInfo × World σ :=
  match fs.sanitize none path with
  | (_, some err) => (.error err, w)
  | (path, none) => hostCall (.Stat path) (os.Stat path) w

def fsImpl.Readlink {σ : Type} (os : Host σ) (fs : fsImpl) (path : Path) (w : World σ) :
    Except Error Path × World σ :=
  match fs.sanitize none path with
  | (_, some err) => (.error err, w)
  | (path, none) => hostCall (.Readlink path) (os.Readlink path) w

/-- The error of the first `sanitize` is overwritten by the second
(`to, err = fs.sanitize(nil, to)` assigns `err` again); only the second is tested. -/
def fsImpl.Rename {σ : Type} (os : Host σ) (fs : fsImpl) (from_ to_ : Path) (w : World σ) :
    Option Error × World σ :=
  let r1 := fs.sanitize none from_
  let from_ := r1.1
  let r2 := fs.sanitize none to_
  let to_ := r2.1
  match r2.2 with
  | some err => (some err, w)
  | none => hostCall (.Rename from_ to_) (os.Rename from_ to_) w

def fsImpl.Remove {σ : Type} (os : Host σ) (fs : fsImpl) (dirPath : Path) (w : World σ) :
    Option Error × World σ :=
  match fs.sanitize none dirPath with
  | (_, some err) => (some err, w)
  | (dirPath, none) => hostCall (.Remove dirPath) (os.Remove dirPath) w

def fsImpl.Mkdir {σ : Type} (os : Host σ) (fs : fsImpl) (path : Path) (perm : Nat)
    (w : World σ) : Option Error × World σ :=
  match fs.sanitize none path with
  | (_, some err) => (some err, w)
  | (path, none) => hostCall (.Mkdir path perm) (os.Mkdir path perm) w

def fsImpl.Link {σ : Type} (os : Host σ) (fs : fsImpl) (file target : Path) (w : World σ) :
    Option Error × World σ :=
  let r1 := fs.sanitize none file
  let file := r1.1
  let r2 := fs.sanitize none target
  let target := r2.1
  match r2.2 with
  | some err => (some err, w)
  | none => hostCall (.Link file target) (os.Link file target) w

def fsImpl.Symlink {σ : Type} (os : Host σ) (fs : fsImpl) (file target : Path) (w : World σ) :
    Option Error × World σ :=
  let r1 := fs.sanitize none file
  let file := r1.1
  let r2 := fs.sanitize none target
  let target := r2.1
  match r2.2 with
  | some err => (some err, w)
  | none => hostCall (.Symlink file target) (os.Symlink file target) w

/-! ## `fs_adapter.go` -/

structure fsAdapter where
  impl : fsImpl

def fsAdapter.OpenFile {σ : Type} (os : Host σ) (fs : fsAdapter) (pathname : Path)
    (flags : FileOpenFlags) (perm : Nat) (w : World σ) : Except Error File × World σ :=
  fs.impl.OpenFile os pathname (osOpenFlags flags) perm w

def fsAdapter.Exists {σ : Type} (os : Host σ) (fs : fsAdapter) (path : Path) (w : World σ) :
    Except Error Bool × World σ :=
  match fs.impl.Stat os path w with
  | (.error err, w1) =>
    if IsNotExist err then (.ok false, w1)
    else (.error (.wrapped "stat call failed" err), w1)
  | (.ok _, w1) => (.ok true, w1)

def fsAdapter.Rename {σ : Type} (os : Host σ) (fs : fsAdapter) (from_ to_ : Path)
    (w : World σ) : Option Error × World σ :=
  fs.impl.Rename os from_ to_ w

def fsAdapter.Rmdir {σ : Type} (os : Host σ) (fs : fsAdapter) (dirPath : Path) (w : World σ) :
    Option Error × World σ :=
  match fs.impl.Stat os dirPath w with
  | (.error err, w1) =>
    if IsNotExist err then (none, w1)
    else (some (.wrapped "stat call failed" err), w1)
  | (.ok stat, w1) =>
    if !stat.IsDir then (some .ErrInvalid, w1)
    else fs.impl.Remove os dirPath w1

def fsAdapter.Unlink {σ : Type} (os : Host σ) (fs : fsAdapter) (path : Path) (w : World σ) :
    Option Error × World σ :=
  fs.impl.Remove os path w

def fsAdapter.Mkdir {σ : Type} (os : Host σ) (fs : fsAdapter) (path : Path) (perm : Nat)
    (w : World σ) : Option Error × World σ :=
  fs.impl.Mkdir os path perm w

def fsAdapter.Stat {σ : Type} (os : Host σ) (fs : fsAdapter) (file : Path) (w : World σ) :
    Except Error FileInfo × World σ :=
  fs.impl.Stat os file w

def fsAdapter.Link {σ : Type} (os : Host σ) (fs : fsAdapter) (file target : Path)
    (w : World σ) : Option Error × World σ :=
  fs.impl.Link os file target w

def fsAdapter.Symlink {σ : Type} (os : Host σ) (fs : fsAdapter) (target file : Path)
    (w : World σ) : Option Error × World σ :=
  fs.impl.Symlink os file target w

def fsAdapter.Readdir {σ : Type} (os : Host σ) (fs : fsAdapter) (dirPath : Path)
    (w : World σ) : Except Error (List FileInfo) × World σ :=
  match fs.impl.OpenFile os dirPath O_RDONLY 256 w with
  | (.error err, w1) => (.error err, w1)
  | (.ok file, w1) => hostCall (.Readdir file 0) (os.Readdir file 0) w1

def fsAdapter.Readlink {σ : Type} (os : Host σ) (fs : fsAdapter) (path : Path) (w : World σ) :
    Except Error Path × World σ :=
  fs.impl.Readlink os path w

/-! ## `fs_session.go`: the session ownership tracker

The receiver `fs *fsSession` is passed in and returned by every operation;
the map `session` is the list of its keys.  The map and `canonicalize` are
taken to be non-nil. -/

structure fsSession extends fsAdapter where
  canonicalize : Path → Path
  session : List Path

def fsSession.isOwned (fs : fsSession) (filepath : Path) : Bool :=
  let canon := fs.canonicalize filepath
  decide (canon ∈ fs.session)

def fsSession.mayClaim {σ : Type} (os : Host σ) (fs : fsSession) (filepath : Path)
    (w : World σ) : Bool × World σ :=
  if fs.isOwned filepath then (true, w)
  else
    match fs.tofsAdapter.Exists os filepath w with
    | (.error _, w1) => (false, w1)
    | (.ok exists_, w1) => (!exists_, w1)

def fsSession.tryClaim {σ : Type} (os : Host σ) (fs : fsSession) (filepath : Path)
    (w : World σ) : Option Error × fsSession × World σ :=
  if fs.isOwned filepath then (none, fs, w)
  else
    match fs.tofsAdapter.Exists os filepath w with
    | (.error err, w1) => (some err, fs, w1)
    | (.ok exists_, w1) =>
      if !exists_ then (some .ErrPermission, fs, w1)
      else
        let canon := fs.canonicalize filepath
        (none, { fs with session := canon :: fs.session }, w1)

/-- The gate of `OpenFile`: the negation of the deny condition
`!isOwned(path) && !(wantsCreate && mayClaim(path))`, evaluated left to right
as Go does, so the existence probe of `mayClaim` runs only when the path is
unowned and creation is requested. -/
def fsSession.openGate {σ : Type} (os : Host σ) (fs : fsSession) (path : Path)
    (wantsCreate : Bool) (w : World σ) : Bool × World σ :=
  if fs.isOwned path then (true, w)
  else if wantsCreate then fs.mayClaim os path w
  else (false, w)

def fsSession.OpenFile {σ : Type} (os : Host σ) (fs : fsSession) (path : Path)
    (flags : FileOpenFlags) (perm : Nat) (w : World σ) :
    Except Error File × fsSession × World σ :=
  let osFlags := osOpenFlags flags
  let wantsCreate := (osFlags &&& O_CREATE) != 0
  match fs.openGate os path wantsCreate w with
  | (false, w0) => (.error .ErrPermission, fs, w0)
  | (true, w0) =>
    match fs.impl.OpenFile os path osFlags perm w0 with
    | (.error err, w1) => (.error err, fs, w1)
    | (.ok handle, w1) =>
      if wantsCreate then
        match fs.tryClaim os path w1 with
        | (some err, fs1, w2) => (.error err, fs1, w2)
        | (none, fs1, w2) => (.ok handle, fs1, w2)
      else (.ok handle, fs, w1)

def fsSession.Exists {σ : Type} (os : Host σ) (fs : fsSession) (path : Path) (w : World σ) :
    Except Error Bool × fsSession × World σ :=
  if !fs.isOwned path then (.error .ErrPermission, fs, w)
  else
    match fs.impl.Stat os path w with
    | (.error err, w1) =>
      if IsNotExist err then (.ok false, fs, w1)
      else (.error (.wrapped "stat failed" err), fs, w1)
    | (.ok _, w1) => (.ok true, fs, w1)

/-- The gate `isOwned(a) && mayClaim(b)` of `Rename`, `Link` and `Symlink`
(they return the permission error when it is false), evaluated left to
right: `mayClaim` runs only when `a` is owned. -/
def fsSession.pairGate {σ : Type} (os : Host σ) (fs : fsSession) (owned claim : Path)
    (w : World σ) : Bool × World σ :=
  if fs.isOwned owned then fs.mayClaim os claim w else (false, w)

def fsSession.Rename {σ : Type} (os : Host σ) (fs : fsSession) (from_ to_ : Path)
    (w : World σ) : Option Error × fsSession × World σ :=
  match fs.pairGate os from_ to_ w with
  | (false, w0) => (some .ErrPermission, fs, w0)
  | (true, w0) =>
    let r := fs.tofsAdapter.Rename os from_ to_ w0
    (r.1, fs, r.2)

def fsSession.Rmdir {σ : Type} (os : Host σ) (fs : fsSession) (dirPath : Path) (w : World σ) :
    Option Error × fsSession × World σ :=
  if !fs.isOwned dirPath then (some .ErrPermission, fs, w)
  else
    let r := fs.tofsAdapter.Rmdir os dirPath w
    (r.1, fs, r.2)

def fsSession.Unlink {σ : Type} (os : Host σ) (fs : fsSession) (path : Path) (w : World σ) :
    Option Error × fsSession × World σ :=
  if !fs.isOwned path then (some .ErrPermission, fs, w)
  else
    let r := fs.impl.Remove os path w
    (r.1, fs, r.2)

def fsSession.Mkdir {σ : Type} (os : Host σ) (fs : fsSession) (path : Path) (perm : Nat)
    (w : World σ) : Option Error × fsSession × World σ :=
  let r := fs.impl.Mkdir os path perm w
  (r.1, fs, r.2)

def fsSession.Stat {σ : Type} (os : Host σ) (fs : fsSession) (file : Path) (w : World σ) :
    Except Error FileInfo × fsSession × World σ :=
  if !fs.isOwned file then (.error .ErrPermission, fs, w)
  else
    let r := fs.impl.Stat os file w
    (r.1, fs, r.2)

def fsSession.Link {σ : Type} (os : Host σ) (fs : fsSession) (file target : Path)
    (w : World σ) : Option Error × fsSession × World σ :=
  match fs.pairGate os file target w with
  | (false, w0) => (some .ErrPermission, fs, w0)
  | (true, w0) =>
    let r := fs.impl.Link os file target w0
    (r.1, fs, r.2)

def fsSession.Symlink {σ : Type} (os : Host σ) (fs : fsSession) (target file : Path)
    (w : World σ) : Option Error × fsSession × World σ :=
  match fs.pairGate os file target w with
  | (false, w0) => (some .ErrPermission, fs, w0)
  | (true, w0) =>
    let r := fs.impl.Symlink os file target w0
    (r.1, fs, r.2)

/-- One round of the loop of `Readdir` over `dirinfo`. -/
def fsSession.readdirStep (fs : fsSession) (dirPath : Path) (owned : List FileInfo)
    (info : FileInfo) : List FileInfo :=
  let fileName := info.Name
  let baseName := Base fileName
  let filePath := Join dirPath baseName
  if !fs.isOwned filePath then owned
  else owned ++ [info]

def fsSession.Readdir {σ : Type} (os : Host σ) (fs : fsSession) (dirPath : Path)
    (w : World σ) : Except Error (List FileInfo) × fsSession × World σ :=
  if !fs.isOwned dirPath then (.error .ErrPermission, fs, w)
  else
    match fs.impl.OpenFile os dirPath O_RDONLY 256 w with
    | (.error err, w1) => (.error err, fs, w1)
    | (.ok file, w1) =>
      match hostCall (.Readdir file 0) (os.Readdir file 0) w1 with
      | (.error err, w2) => (.error err, fs, w2)
      | (.ok dirinfo, w2) => (.ok (dirinfo.foldl (fs.readdirStep dirPath) []), fs, w2)

def fsSession.Readlink {σ : Type} (os : Host σ) (fs : fsSession) (path : Path) (w : World σ) :
    Except Error Path × fsSession × World σ :=
  if !fs.isOwned path then (.error .ErrPermission, fs, w)
  else
    match fs.impl.Readlink os path w with
    | (.error err, w1) => (.error err, fs, w1)
    | (.ok linkPath, w1) =>
      if !fs.isOwned path then (.error .ErrPermission, fs, w1)
      else (.ok linkPath, fs, w1)

/-- Any one of the eleven `fsSession` operations, with its arguments. -/
inductive SessionOp where
  | OpenFile (path : Path) (flags : FileOpenFlags) (perm : Nat)
  | Exists (path : Path)
  | Rename (from_ to_ : Path)
  | Rmdir (dirPath : Path)
  | Unlink (path : Path)
  | Mkdir (path : Path) (perm : Nat)
  | Stat (file : Path)
  | Link (file target : Path)
  | Symlink (target file : Path)
  | Readdir (dirPath : Path)
  | Readlink (path : Path)

deriving instance DecidableEq for Except

/-- What an `fsSession` operation returns. -/
inductive OpResult where
  | file (r : Except Error File)
  | bool (r : Except Error Bool)
  | err (r : Option Error)
  | info (r : Except Error FileInfo)
  | infos (r : Except Error (List FileInfo))
  | path (r : Except Error Path)
  deriving DecidableEq

/-- Run one `fsSession` operation. -/
def fsSession.run {σ : Type} (os : Host σ) (fs : fsSession) (op : SessionOp) (w : World σ) :
    OpResult × fsSession × World σ :=
  match op with
  | .OpenFile p f m => let r := fs.OpenFile os p f m w; (.file r.1, r.2)
  | .Exists p => let r := fs.Exists os p w; (.bool r.1, r.2)
  | .Rename a b => let r := fs.Rename os a b w; (.err r.1, r.2)
  | .Rmdir p => let r := fs.Rmdir os p w; (.err r.1, r.2)
  | .Unlink p => let r := fs.Unlink os p w; (.err r.1, r.2)
  | .Mkdir p m => let r := fs.Mkdir os p m w; (.err r.1, r.2)
  | .Stat p => let r := fs.Stat os p w; (.info r.1, r.2)
  | .Link a b => let r := fs.Link os a b w; (.err r.1, r.2)
  | .Symlink a b => let r := fs.Symlink os a b w; (.err r.1, r.2)
  | .Readdir p => let r := fs.Readdir os p w; (.infos r.1, r.2)
  | .Readlink p => let r := fs.Readlink os p w; (.path r.1, r.2)

/-! ## `handler.go`: the protocol operation dispatcher -/

structure userRootHandler where
  fs : fsAdapter
  fperm : Nat
  dperm : Nat
  rootPath : Path

def userRootHandler.pathSanitizer (ur : userRootHandler) (path : Path) : Path × Option Error :=
  let orgPath := path
  let path := if !IsAbs path then Join ur.rootPath path else path
  let path := if IsAbs path then Join ur.rootPath path else path
  let path := Clean path
  if !HasPrefix path (Clean ur.rootPath) then (ur.rootPath, some (.invalidFilePath orgPath))
  else (path, none)

/-- The method value `ur.pathSanitizer` is bound when `ur.fs` is still the
zero value; the sanitizer reads `rootPath` only. -/
def newUserHandler (root : Path) : userRootHandler :=
  let ur : userRootHandler :=
    { fs := { impl := { sanitizer := none } }, dperm := 0o770, fperm := 0o660, rootPath := root }
  let fs : fsAdapter := { impl := { sanitizer := some ur.pathSanitizer } }
  { ur with fs := fs }

/-- The fields of `sftp.Request` that the handler reads: `Pflags` is
`req.Pflags()`, `AttrSize` is `req.AttrFlags().Size`, `Size` is
`req.Attributes().Size`. -/
structure Request where
  Method : String
  Filepath : Path
  Target : Path := []
  Pflags : FileOpenFlags := {}
  AttrSize : Bool := false
  Size : Nat := 0

def userRootHandler.Fileread {σ : Type} (os : Host σ) (ur : userRootHandler) (req : Request)
    (w : World σ) : Except Error File × World σ :=
  let flags := req.Pflags
  if !flags.Read then (.error .ErrInvalid, w)
  else ur.fs.OpenFile os req.Filepath req.Pflags ur.fperm w

def userRootHandler.Filewrite {σ : Type} (os : Host σ) (ur : userRootHandler) (req : Request)
    (w : World σ) : Except Error File × World σ :=
  let flags := req.Pflags
  if !flags.Write then (.error .ErrInvalid, w)
  else ur.fs.OpenFile os req.Filepath req.Pflags ur.fperm w

abbrev listerat := List FileInfo

def userRootHandler.Filelist {σ : Type} (os : Host σ) (ur : userRootHandler) (req : Request)
    (w : World σ) : Except Error listerat × World σ :=
  if req.Method = "List" then
    match ur.fs.Readdir os req.Filepath w with
    | (.error err, w1) => (.error err, w1)
    | (.ok files, w1) => (.ok files, w1)
  else if req.Method = "Stat" then
    match ur.fs.Stat os req.Filepath w with
    | (.error err, w1) => (.error err, w1)
    | (.ok file, w1) => (.ok [file], w1)
  else if req.Method = "Readlink" then
    match ur.fs.Readlink os req.Filepath w with
    | (.error err, w1) => (.error err, w1)
    | (.ok symlink, w1) =>
      match ur.fs.Stat os symlink w1 with
      | (.error err, w2) => (.error err, w2)
      | (.ok file, w2) => (.ok [file], w2)
  else (.error .unsupported, w)

/-- Go's conversion `int64(x)` of a `uint64`. -/
def int64OfUint64 (x : Nat) : Int :=
  if x % 2 ^ 64 < 2 ^ 63 then (x % 2 ^ 64 : Nat) else ((x % 2 ^ 64 : Nat) : Int) - 2 ^ 64

def userRootHandler.Filecmd {σ : Type} (os : Host σ) (ur : userRootHandler) (req : Request)
    (w : World σ) : Option Error × World σ :=
  if req.Method = "Setstat" then
    match ur.fs.OpenFile os req.Filepath { Write := true } ur.fperm w with
    | (.error err, w1) => (some err, w1)
    | (.ok file, w1) =>
      if req.AttrSize then
        hostCall (.Truncate file (int64OfUint64 req.Size))
          (os.Truncate file (int64OfUint64 req.Size)) w1
      else (none, w1)
  else if req.Method = "Rename" then
    match ur.fs.Exists os req.Target w with
    | (.error err, w1) => (some err, w1)
    | (.ok exists_, w1) =>
      if exists_ then (some .ErrExist, w1)
      else ur.fs.Rename os req.Filepath req.Target w1
  else if req.Method = "Rmdir" then ur.fs.Rmdir os req.Filepath w
  else if req.Method = "Remove" then ur.fs.Unlink os req.Filepath w
  else if req.Method = "Mkdir" then ur.fs.Mkdir os req.Filepath ur.dperm w
  else if req.Method = "Link" then ur.fs.Link os req.Filepath req.Target w
  else if req.Method = "Symlink" then ur.fs.Symlink os req.Filepath req.Target w
  else (some .unsupported, w)

/-- The method `ListAt` of `listerat`: the buffer after the call, the count
`n` and the error.  `copy(ls, f[offset:])` overwrites the first `n` places of
the buffer; the slice expression `f[offset:]` panics for a negative offset,
which is `none` here. -/
def listerat.ListAt (f : listerat) (ls : List FileInfo) (offset : Int) :
    Option (List FileInfo × Nat × Option Error) :=
  if offset ≥ (f.length : Int) then some (ls, 0, some .EOF)
  else if offset < 0 then none
  else
    let src := f.drop offset.toNat
    let n := min ls.length src.length
    let copied := src.take n ++ ls.drop n
    if n < ls.length then some (copied, n, some .EOF)
    else some (copied, n, none)

/-- A reader that pages through a lister with one buffer: it calls `ListAt`
from the given offset, keeps the `n` entries copied, and advances the offset
by `n` until `io.EOF` is returned.  The first argument bounds the number of
calls; `none` means the bound was reached or `ListAt` panicked. -/
def readPages (f : listerat) : Nat → List FileInfo → Int → Option (List FileInfo)
  | 0, _, _ => none
  | fuel + 1, ls, offset =>
    match listerat.ListAt f ls offset with
    | none => none
    | some (ls, n, some _) => some (ls.take n)
    | some (ls, n, none) => (readPages f fuel ls (offset + n)).map (fun rest => ls.take n ++ rest)

/-! ## `srv.go` and `cmd/server/main.go`: credential and server start -/

/-- A byte string (`string` or `[]byte`). -/
abbrev Bytes := List Char

structure user where
  Name : Bytes
  Password : Bytes
  QuotaBytes : Int := 0

/-- The method `credentialMatch`. `sum256` is the digest of `crypto/sha256`:
`h.Sum(nil)` after `h.Write(a)` and `h.Write(b)` is the digest of `a ++ b`. -/
def user.credentialMatch (sum256 : Bytes → Bytes) (u : user) (userName : Bytes)
    (userPass : Bytes) : Bool :=
  if userName ≠ u.Name then false
  else sum256 (userName ++ userPass) == u.Password

def plaintextToHash (sum256 : Bytes → Bytes) (userName password : Bytes) : Bytes :=
  sum256 (userName ++ password)

structure config where
  User : user := { Name := [], Password := [] }
  HostKeyPub : Bytes := []
  HostKeyPriv : Bytes := []
  DataDir : Path := []
  MaxDataBytes : Int := 0

/-- What the idle callback does; the functions used in the repository are
`stopIfIdle` of `main.go` and the test's callback that calls `Close`. -/
inductive IdleCallback where
  | callsClose
  | stopIfIdle
  deriving DecidableEq, Repr

/-- The `Server` record; `serveChan` is `none` for a nil channel, else the
identity of the channel. The `debug` writer is left out. -/
structure Server where
  conf : config := {}
  serveChan : Option Nat := none
  activeConns : Int := 0
  onIdleCallback : Option IdleCallback := none

/-- A parsed host key (`ssh.Signer`). -/
structure Signer where
  key : Bytes
  deriving DecidableEq, Repr

/-- How far `ServeSocket` gets before its accept loop: either it has
returned, or it enters the loop with the stop channel and the host key. -/
inductive ServeStart where
  | returned (err : Option Error) (s : Server)
  | acceptLoop (s : Server) (stopChan : Nat) (hostKey : Signer)

/-- The sequential start of `ServeSocket`, up to the `go` statement that
waits on the stop channel: the test for `serveChan`, the new stop channel
(`fresh` is its identity) and the parsing of the host key with
`ssh.ParsePrivateKey`, given as `parse`.  The accept loop, which runs
concurrently with the connection tasks, is not part of this definition. -/
def Server.ServeSocketStart (parse : Bytes → Except Error Signer) (s : Server) (fresh : Nat) :
    ServeStart :=
  if s.serveChan ≠ none then .returned (some (.message "already serving")) s
  else
    let stopChan := fresh
    let s := { s with serveChan := some stopChan }
    match parse s.conf.HostKeyPriv with
    | .error err => .returned (some err) s
    | .ok private_ => .acceptLoop s stopChan private_

/-! ## A small in-memory host, for concrete runs -/

structure Node where
  path : Path
  isDir : Bool
  deriving DecidableEq, Repr

abbrev Disk := List Node

def Disk.lookup (d : Disk) (p : Path) : Option Node :=
  d.find? (fun n => n.path = p)

/-- The node at `p` is a direct child of directory `dir`. -/
def childOf (dir p : Path) : Bool :=
  p = dir ++ '/' :: Base p

def EPERM : Nat := 1

/-- A disk of directories and regular files without contents, permission
bits or symbolic links. -/
def memHost : Host Disk where
  OpenFile path flags _ d :=
    match d.lookup path with
    | some _ =>
      if (flags &&& O_CREATE) != 0 && (flags &&& O_EXCL) != 0 then
        (.error (.pathError "open" path (.errno EEXIST)), d)
      else (.ok ⟨path⟩, d)
    | none =>
      if (flags &&& O_CREATE) != 0 then (.ok ⟨path⟩, d ++ [⟨path, false⟩])
      else (.error (.pathError "open" path (.errno ENOENT)), d)
  Stat path d :=
    match d.lookup path with
    | some n => (.ok { Name := Base path, IsDir := n.isDir }, d)
    | none => (.error (.pathError "stat" path (.errno ENOENT)), d)
  Readlink path d :=
    match d.lookup path with
    | some _ => (.error (.pathError "readlink" path (.errno EINVAL)), d)
    | none => (.error (.pathError "readlink" path (.errno ENOENT)), d)
  Rename a b d :=
    match d.lookup a with
    | some n => (none, d.filter (fun m => m.path ≠ a && m.path ≠ b) ++ [⟨b, n.isDir⟩])
    | none => (some (.linkError "rename" a b (.errno ENOENT)), d)
  Remove p d :=
    match d.lookup p with
    | some _ => (none, d.filter (fun m => m.path ≠ p))
    | none => (some (.pathError "remove" p (.errno ENOENT)), d)
  Mkdir p _ d :=
    match d.lookup p with
    | some _ => (some (.pathError "mkdir" p (.errno EEXIST)), d)
    | none => (none, d ++ [⟨p, true⟩])
  Link a b d :=
    match d.lookup a, d.lookup b with
    | some _, none => (none, d ++ [⟨b, false⟩])
    | some _, some _ => (some (.linkError "link" a b (.errno EEXIST)), d)
    | none, _ => (some (.linkError "link" a b (.errno ENOENT)), d)
  Symlink a b d := (some (.linkError "symlink" a b (.errno EPERM)), d)
  Readdir f _ d :=
    (.ok ((d.filter (fun n => childOf f.name n.path)).map
      (fun n => { Name := Base n.path, IsDir := n.isDir })), d)
  Truncate _ _ d := (none, d)

/-! ## Statements about paths and sample data -/

/-- The path `p` lies in the directory tree of `root`: it is `Clean root`,
or `Clean root` followed by a separator and more; under the root `/` every
absolute path does. -/
def liesUnder (root p : Path) : Bool :=
  p = Clean root || HasPrefix p (Clean root ++ ['/']) || (Clean root = ['/'] && IsAbs p)

/-- A path element that names a file or directory: it is not empty, not
`.`, not `..`, and holds no separator. -/
def isName (e : Path) : Bool :=
  e ≠ [] && e ≠ ['.'] && e ≠ ['.', '.'] && decide ('/' ∉ e)

/-- A fresh session over the gateway of `newUserHandler root`, with
`filepath.Clean` as canonical form and the given owned paths. -/
def sessionOn (root : Path) (owned : List Path) : fsSession :=
  { impl := (newUserHandler root).fs.impl, canonicalize := Clean, session := owned }

/-- A world with the given disk and an empty call log. -/
def worldOf {σ : Type} (d : σ) : World σ := ⟨d, []⟩

/-- A disk holding the root directory `/srv` only. -/
def diskEmpty : Disk := [⟨"/srv".toList, true⟩]

/-- The disk `diskEmpty` plus the regular file `/srv/a.txt`. -/
def diskWithA : Disk := [⟨"/srv".toList, true⟩, ⟨"/srv/a.txt".toList, false⟩]

/-- A disk with the directory `/srv/d`. -/
def diskWithD : Disk := [⟨"/srv".toList, true⟩, ⟨"/srv/d".toList, true⟩]

/-- A disk with the directory `/srv/d` holding the files `a.txt` and
`b.txt`. -/
def diskWithTwo : Disk :=
  [⟨"/srv".toList, true⟩, ⟨"/srv/d".toList, true⟩, ⟨"/srv/d/a.txt".toList, false⟩,
    ⟨"/srv/d/b.txt".toList, false⟩]

/-- A stand-in for the digest in concrete runs; it is not SHA-256. -/
def sampleDigest (b : Bytes) : Bytes := 'h' :: b.reverse

/-- A stand-in for `ssh.ParsePrivateKey` in concrete runs: it finds no key
in a text that does not start with a PEM header, the empty text included. -/
def sampleParse (pem : Bytes) : Except Error Signer :=
  if HasPrefix pem "-----BEGIN ".toList then .ok ⟨pem⟩
  else .error (.message "ssh: no key found")

/-- Three directory entries. -/
def threeEntries : listerat :=
  [{ Name := "a".toList }, { Name := "b".toList }, { Name := "c".toList }]

/-- The argument that the gate of an operation requires to be owned
outright, without the `mayClaim` alternative: none for `Mkdir` (no gate) and
for `OpenFile` with the create flag. -/
def SessionOp.ownedArg : SessionOp → Option Path
  | .OpenFile p f _ => if f.Creat then none else some p
  | .Exists p => some p
  | .Rename a _ => some a
  | .Rmdir p => some p
  | .Unlink p => some p
  | .Mkdir _ _ => none
  | .Stat p => some p
  | .Link a _ => some a
  | .Symlink _ file => some file
  | .Readdir p => some p
  | .Readlink p => some p

/-- The permission error, in the result type of the operation. -/
def SessionOp.denied : SessionOp → OpResult
  | .OpenFile _ _ _ => .file (.error .ErrPermission)
  | .Exists _ => .bool (.error .ErrPermission)
  | .Rename _ _ => .err (some .ErrPermission)
  | .Rmdir _ => .err (some .ErrPermission)
  | .Unlink _ => .err (some .ErrPermission)
  | .Mkdir _ _ => .err (some .ErrPermission)
  | .Stat _ => .info (.error .ErrPermission)
  | .Link _ _ => .err (some .ErrPermission)
  | .Symlink _ _ => .err (some .ErrPermission)
  | .Readdir _ => .infos (.error .ErrPermission)
  | .Readlink _ => .path (.error .ErrPermission)

/-! ## Theorems -/

theorem wantsCreate_eq (f : FileOpenFlags) : ((osOpenFlags f &&& O_CREATE) != 0) = f.Creat := by
  rcases f with ⟨r, wr, a, c, t, e⟩
  cases r <;> cases wr <;> cases a <;> cases c <;> cases t <;> cases e <;> decide

theorem isOwned_eq_true_iff (fs : fsSession) (p : Path) :
    fs.isOwned p = true ↔ fs.canonicalize p ∈ fs.session := by
  simp [fsSession.isOwned]

theorem isOwned_eq_false_iff (fs : fsSession) (p : Path) :
    fs.isOwned p = false ↔ fs.canonicalize p ∉ fs.session := by
  simp [fsSession.isOwned]

/-- C1, as the code behaves: `pathSanitizer` accepts paths outside the root.
With root `/srv` the absolute client path `/../srv2/x` is returned as
`/srv2/x` without error, and with the relative root `./sftproot` the client
path `../sftproot2/x` is returned as `sftproot2/x` without error: both are
in a sibling directory whose name starts with the root's name, and neither
lies under the root. -/
theorem pathSanitizer_accepts_sibling_of_root :
    (newUserHandler "/srv".toList).pathSanitizer "/../srv2/x".toList
        = ("/srv2/x".toList, none) ∧
      liesUnder "/srv".toList "/srv2/x".toList = false ∧
      (newUserHandler "./sftproot".toList).pathSanitizer "../sftproot2/x".toList
        = ("sftproot2/x".toList, none) ∧
      liesUnder "./sftproot".toList "sftproot2/x".toList = false := by
  decide

/-- C2, counterexample: a handler made by `newUserHandler` has no ownership
set.  On a disk where `/srv/a.txt` exists, a read request with the read flag
and a `Stat` request for `/a.txt` both succeed, although nothing was claimed;
neither is answered with the permission error. -/
theorem handler_serves_unclaimed_path :
    ((newUserHandler "/srv".toList).Fileread memHost
        { Method := "Get", Filepath := "/a.txt".toList, Pflags := { Read := true } }
        (worldOf diskWithA)).1 = .ok ⟨"/srv/a.txt".toList⟩ ∧
      ((newUserHandler "/srv".toList).Filelist memHost
        { Method := "Stat", Filepath := "/a.txt".toList }
        (worldOf diskWithA)).1 = .ok [{ Name := "a.txt".toList }] := by
  decide

/-- C2, amended: the handler made by `newUserHandler root` holds a plain
`fsAdapter`, without ownership gate.  When the sanitizer accepts the request
path as `q`, a read request with the read flag set returns what the host's
open of `q` (with the mapped flags and mode 0660) returns, and a `Stat`
request returns the host's stat of `q` as a one-entry list, or its error;
each makes exactly that one host call. -/
theorem handler_read_and_stat_delegate_to_host {σ : Type} (os : Host σ) (root q : Path)
    (req : Request) (w : World σ)
    (hq : (newUserHandler root).pathSanitizer req.Filepath = (q, none))
    (hr : req.Pflags.Read = true) :
    (newUserHandler root).Fileread os req w
        = ((os.OpenFile q (osOpenFlags req.Pflags) 0o660 w.disk).1,
            ⟨(os.OpenFile q (osOpenFlags req.Pflags) 0o660 w.disk).2,
              w.calls ++ [.OpenFile q (osOpenFlags req.Pflags) 0o660]⟩) ∧
      (newUserHandler root).Filelist os { req with Method := "Stat" } w
        = ((os.Stat q w.disk).1.map (fun file => [file]),
            ⟨(os.Stat q w.disk).2, w.calls ++ [.Stat q]⟩) := by
  have hs : (newUserHandler root).fs.impl.sanitize none req.Filepath = (q, none) := hq
  constructor
  · simp only [userRootHandler.Fileread, hr, fsAdapter.OpenFile, fsImpl.OpenFile, hs, hostCall]
    rfl
  · simp only [userRootHandler.Filelist, fsAdapter.Stat, fsImpl.Stat, hs, hostCall]
    cases hS : (os.Stat q w.disk).1 <;> simp [Except.map]

/-- C2, amended, at a concrete input: on the disk with `/srv/a.txt`, the
read request for `/a.txt` returns the host's open of `/srv/a.txt`. -/
theorem handler_read_and_stat_delegate_to_host_witness :
    (newUserHandler "/srv".toList).pathSanitizer "/a.txt".toList = ("/srv/a.txt".toList, none) ∧
      ((newUserHandler "/srv".toList).Fileread memHost
        { Method := "Get", Filepath := "/a.txt".toList, Pflags := { Read := true } }
        (worldOf diskWithA)).2.calls = [.OpenFile "/srv/a.txt".toList 0 0o660] :=
  ⟨by decide, by
    rw [(handler_read_and_stat_delegate_to_host memHost "/srv".toList "/srv/a.txt".toList
      { Method := "Get", Filepath := "/a.txt".toList, Pflags := { Read := true } }
      (worldOf diskWithA) (by decide) rfl).1]
    decide⟩

/-- C3, as the code behaves: in `fsImpl.Rename`, `fsImpl.Link` and
`fsImpl.Symlink` the error of the first `sanitize` is overwritten by the
second.  With the sanitizer of root `/srv`, the first argument
`/../etc/passwd` is rejected and the second argument `/b` is accepted; each of
the three operations then makes the host call, on the root path `/srv` that
the sanitizer returned beside its error and on `/srv/b`. -/
theorem fsImpl_two_path_ops_drop_first_rejection {σ : Type} (os : Host σ) (w : World σ) :
    ((newUserHandler "/srv".toList).fs.impl.sanitize none "/../etc/passwd".toList)
        = ("/srv".toList, some (.invalidFilePath "/../etc/passwd".toList)) ∧
      (newUserHandler "/srv".toList).fs.impl.Rename os "/../etc/passwd".toList "/b".toList w
        = hostCall (.Rename "/srv".toList "/srv/b".toList)
            (os.Rename "/srv".toList "/srv/b".toList) w ∧
      (newUserHandler "/srv".toList).fs.impl.Link os "/../etc/passwd".toList "/b".toList w
        = hostCall (.Link "/srv".toList "/srv/b".toList)
            (os.Link "/srv".toList "/srv/b".toList) w ∧
      (newUserHandler "/srv".toList).fs.impl.Symlink os "/../etc/passwd".toList "/b".toList w
        = hostCall (.Symlink "/srv".toList "/srv/b".toList)
            (os.Symlink "/srv".toList "/srv/b".toList) w := by
  have h1 : (newUserHandler "/srv".toList).fs.impl.sanitize none "/../etc/passwd".toList
      = ("/srv".toList, some (.invalidFilePath "/../etc/passwd".toList)) := by decide
  have h2 : (newUserHandler "/srv".toList).fs.impl.sanitize none "/b".toList
      = ("/srv/b".toList, none) := by decide
  refine ⟨h1, ?_, ?_, ?_⟩
  · simp only [fsImpl.Rename, h1, h2]
  · simp only [fsImpl.Link, h1, h2]
  · simp only [fsImpl.Symlink, h1, h2]

/-- C4, counterexample: the empty session does not own `/a.txt`; the two
disks differ only in whether `/srv/a.txt` exists.  A write-with-create
`OpenFile` of `/a.txt` returns a handle on the disk where the file is missing
and the permission error on the disk where it exists, so the result tells
the session whether the unowned path exists. -/
theorem create_open_reveals_existence :
    (sessionOn "/srv".toList []).isOwned "/a.txt".toList = false ∧
      ((sessionOn "/srv".toList []).run memHost
        (.OpenFile "/a.txt".toList { Write := true, Creat := true } 0o660)
        (worldOf diskEmpty)).1 = .file (.ok ⟨"/srv/a.txt".toList⟩) ∧
      ((sessionOn "/srv".toList []).run memHost
        (.OpenFile "/a.txt".toList { Write := true, Creat := true } 0o660)
        (worldOf diskWithA)).1 = .file (.error .ErrPermission) := by
  decide

/-- C4, amended: for every operation whose gate requires `p` to be owned
outright (`Stat`, `Exists`, `Unlink`, `Rmdir`, `Readdir`, `Readlink`,
`OpenFile` without the create flag, and `Rename`, `Link`, `Symlink` with `p`
as the argument tested by `isOwned`) and every unowned `p`, the result is the
permission error in any two filesystem states, so it is the same in both. -/
theorem unowned_result_independent_of_disk {σ : Type} (os : Host σ) (fs : fsSession)
    (op : SessionOp) (p : Path) (w1 w2 : World σ)
    (hop : op.ownedArg = some p) (h : fs.canonicalize p ∉ fs.session) :
    (fs.run os op w1).1 = (fs.run os op w2).1 ∧ (fs.run os op w1).1 = op.denied := by
  have hp : fs.isOwned p = false := (isOwned_eq_false_iff fs p).2 h
  have key : ∀ w : World σ, (fs.run os op w).1 = op.denied := by
    intro w
    cases op with
    | OpenFile q f m =>
      have hc : f.Creat = false := by
        cases hf : f.Creat
        · rfl
        · simp [SessionOp.ownedArg, hf] at hop
      have hq : q = p := by simpa [SessionOp.ownedArg, hc] using hop
      subst hq
      simp [fsSession.run, fsSession.OpenFile, fsSession.openGate, wantsCreate_eq, hc, hp,
        SessionOp.denied]
    | Exists q =>
      have hq : q = p := by simpa [SessionOp.ownedArg] using hop
      subst hq
      simp [fsSession.run, fsSession.Exists, hp, SessionOp.denied]
    | Rename a b =>
      have hq : a = p := by simpa [SessionOp.ownedArg] using hop
      subst hq
      simp [fsSession.run, fsSession.Rename, fsSession.pairGate, hp, SessionOp.denied]
    | Rmdir q =>
      have hq : q = p := by simpa [SessionOp.ownedArg] using hop
      subst hq
      simp [fsSession.run, fsSession.Rmdir, hp, SessionOp.denied]
    | Unlink q =>
      have hq : q = p := by simpa [SessionOp.ownedArg] using hop
      subst hq
      simp [fsSession.run, fsSession.Unlink, hp, SessionOp.denied]
    | Mkdir q m => simp [SessionOp.ownedArg] at hop
    | Stat q =>
      have hq : q = p := by simpa [SessionOp.ownedArg] using hop
      subst hq
      simp [fsSession.run, fsSession.Stat, hp, SessionOp.denied]
    | Link a b =>
      have hq : a = p := by simpa [SessionOp.ownedArg] using hop
      subst hq
      simp [fsSession.run, fsSession.Link, fsSession.pairGate, hp, SessionOp.denied]
    | Symlink a b =>
      have hq : b = p := by simpa [SessionOp.ownedArg] using hop
      subst hq
      simp [fsSession.run, fsSession.Symlink, fsSession.pairGate, hp, SessionOp.denied]
    | Readdir q =>
      have hq : q = p := by simpa [SessionOp.ownedArg] using hop
      subst hq
      simp [fsSession.run, fsSession.Readdir, hp, SessionOp.denied]
    | Readlink q =>
      have hq : q = p := by simpa [SessionOp.ownedArg] using hop
      subst hq
      simp [fsSession.run, fsSession.Readlink, hp, SessionOp.denied]
  exact ⟨(key w1).trans (key w2).symm, key w1⟩

/-- C4, amended, at a concrete input: `Stat` of the unowned `/a.txt` gives
the same result on the disk without and on the disk with `/srv/a.txt`. -/
theorem unowned_result_independent_of_disk_witness :
    (SessionOp.Stat "/a.txt".toList).ownedArg = some "/a.txt".toList ∧
      (sessionOn "/srv".toList []).canonicalize "/a.txt".toList
        ∉ (sessionOn "/srv".toList []).session ∧
      ((sessionOn "/srv".toList []).run memHost (.Stat "/a.txt".toList) (worldOf diskEmpty)).1
        = ((sessionOn "/srv".toList []).run memHost (.Stat "/a.txt".toList)
            (worldOf diskWithA)).1 :=
  ⟨rfl, by decide,
    (unowned_result_independent_of_disk memHost (sessionOn "/srv".toList [])
      (.Stat "/a.txt".toList) "/a.txt".toList (worldOf diskEmpty) (worldOf diskWithA)
      rfl (by decide)).1⟩

/-- C5: when the canonical form of `p` is not in the ownership set, `Stat`,
`Unlink`, `Rmdir`, `Readdir`, `Readlink` and `OpenFile` without the create
flag each return the permission error and hand back the session and the
world as they were: the ownership set is unchanged, the disk is unchanged
and no host call is added to the log, on every host and disk. -/
theorem unowned_ops_denied_without_host_call {σ : Type} (os : Host σ) (fs : fsSession)
    (p : Path) (w : World σ) (h : fs.canonicalize p ∉ fs.session) :
    fs.Stat os p w = (.error .ErrPermission, fs, w) ∧
      fs.Unlink os p w = (some .ErrPermission, fs, w) ∧
      fs.Rmdir os p w = (some .ErrPermission, fs, w) ∧
      fs.Readdir os p w = (.error .ErrPermission, fs, w) ∧
      fs.Readlink os p w = (.error .ErrPermission, fs, w) ∧
      ∀ (flags : FileOpenFlags) (perm : Nat), flags.Creat = false →
        fs.OpenFile os p flags perm w = (.error .ErrPermission, fs, w) := by
  have hp : fs.isOwned p = false := (isOwned_eq_false_iff fs p).2 h
  refine ⟨?_, ?_, ?_, ?_, ?_, ?_⟩
  · simp [fsSession.Stat, hp]
  · simp [fsSession.Unlink, hp]
  · simp [fsSession.Rmdir, hp]
  · simp [fsSession.Readdir, hp]
  · simp [fsSession.Readlink, hp]
  · intro flags perm hc
    simp [fsSession.OpenFile, fsSession.openGate, wantsCreate_eq, hc, hp]

/-- C5 at a concrete input: in the empty session on the disk where
`/srv/a.txt` exists, `Stat` and a read-only `OpenFile` of `/a.txt` are denied
and the call log stays empty. -/
theorem unowned_ops_denied_without_host_call_witness :
    (sessionOn "/srv".toList []).canonicalize "/a.txt".toList
        ∉ (sessionOn "/srv".toList []).session ∧
      ((sessionOn "/srv".toList []).Stat memHost "/a.txt".toList (worldOf diskWithA)).1
        = .error .ErrPermission ∧
      ((sessionOn "/srv".toList []).OpenFile memHost "/a.txt".toList { Read := true } 0o660
        (worldOf diskWithA)).2.2.calls = [] :=
  ⟨by decide,
    by rw [(unowned_ops_denied_without_host_call memHost (sessionOn "/srv".toList [])
      "/a.txt".toList (worldOf diskWithA) (by decide)).1],
    by
      rw [(unowned_ops_denied_without_host_call memHost (sessionOn "/srv".toList [])
        "/a.txt".toList (worldOf diskWithA) (by decide)).2.2.2.2.2 { Read := true } 0o660 rfl]
      rfl⟩

theorem tryClaim_canonicalize {σ : Type} (os : Host σ) (fs : fsSession) (p : Path)
    (w : World σ) : (fs.tryClaim os p w).2.1.canonicalize = fs.canonicalize := by
  unfold fsSession.tryClaim
  split
  · rfl
  · split
    · rfl
    · split <;> rfl

theorem tryClaim_impl {σ : Type} (os : Host σ) (fs : fsSession) (p : Path)
    (w : World σ) : (fs.tryClaim os p w).2.1.impl = fs.impl := by
  unfold fsSession.tryClaim
  split
  · rfl
  · split
    · rfl
    · split <;> rfl

theorem tryClaim_mono {σ : Type} (os : Host σ) (fs : fsSession) (p : Path)
    (w : World σ) (c : Path) (h : c ∈ fs.session) : c ∈ (fs.tryClaim os p w).2.1.session := by
  unfold fsSession.tryClaim
  split
  · exact h
  · split
    · exact h
    · split
      · exact h
      · exact List.mem_cons_of_mem _ h

theorem tryClaim_owned_of_ok {σ : Type} (os : Host σ) (fs : fsSession) (p : Path)
    (w : World σ) (h : (fs.tryClaim os p w).1 = none) :
    fs.canonicalize p ∈ (fs.tryClaim os p w).2.1.session := by
  unfold fsSession.tryClaim at h ⊢
  split
  · next ho => exact (isOwned_eq_true_iff fs p).1 ho
  · next ho =>
    simp only [ho] at h
    split
    · next err w1 he => simp [he] at h
    · next ex w1 he =>
      cases ex
      · simp [he] at h
      · simp

/-- What a successful `OpenFile` with the create flag leaves behind: the
session returned is the one returned by `tryClaim`, which reported no
error. -/
theorem OpenFile_create_ok {σ : Type} (os : Host σ) (fs fs1 : fsSession) (p : Path)
    (flags : FileOpenFlags) (perm : Nat) (handle : File) (w w1 : World σ)
    (hc : flags.Creat = true)
    (hopen : fs.OpenFile os p flags perm w = (.ok handle, fs1, w1)) :
    ∃ w0 : World σ, (fs.tryClaim os p w0).1 = none ∧ fs1 = (fs.tryClaim os p w0).2.1 := by
  unfold fsSession.OpenFile at hopen
  simp only [wantsCreate_eq, hc] at hopen
  split at hopen
  · simp at hopen
  · split at hopen
    · simp at hopen
    · next hd w0 hi =>
      simp only [if_true] at hopen
      split at hopen
      · simp at hopen
      · next fs2 w2 ht =>
        refine ⟨w0, by rw [ht], ?_⟩
        rw [ht]
        simp only [Prod.mk.injEq] at hopen
        exact hopen.2.1.symm

/-- C6: when `OpenFile` with the create flag returns a handle without error,
the canonical form of the path is in the ownership set of the session
afterwards; a following `Stat` and a following read-only `OpenFile` of the
path in that session then return what the gateway (`fsImpl.Stat`,
`fsImpl.OpenFile` with `O_RDONLY`) returns, in every world, and leave the
session as it is. -/
theorem create_open_claims_path {σ : Type} (os : Host σ) (fs fs1 : fsSession) (p : Path)
    (flags : FileOpenFlags) (perm : Nat) (handle : File) (w w1 : World σ)
    (hc : flags.Creat = true)
    (hopen : fs.OpenFile os p flags perm w = (.ok handle, fs1, w1)) :
    fs1.canonicalize p ∈ fs1.session ∧
      (∀ w2 : World σ,
        fs1.Stat os p w2 = ((fs1.impl.Stat os p w2).1, fs1, (fs1.impl.Stat os p w2).2)) ∧
      (∀ (perm2 : Nat) (w2 : World σ),
        fs1.OpenFile os p { Read := true } perm2 w2
          = ((fs1.impl.OpenFile os p O_RDONLY perm2 w2).1, fs1,
              (fs1.impl.OpenFile os p O_RDONLY perm2 w2).2)) := by
  obtain ⟨w0, hnone, hfs⟩ := OpenFile_create_ok os fs fs1 p flags perm handle w w1 hc hopen
  have hmem : fs1.canonicalize p ∈ fs1.session := by
    rw [hfs, tryClaim_canonicalize]
    exact tryClaim_owned_of_ok os fs p w0 hnone
  have ho : fs1.isOwned p = true := (isOwned_eq_true_iff fs1 p).2 hmem
  refine ⟨hmem, ?_, ?_⟩
  · intro w2
    simp [fsSession.Stat, ho]
  · intro perm2 w2
    have hf : osOpenFlags { Read := true } = O_RDONLY := by decide
    have hw : ((O_RDONLY &&& O_CREATE) != 0) = false := by decide
    unfold fsSession.OpenFile
    simp only [hf, hw, fsSession.openGate, ho, if_true]
    cases hr : fs1.impl.OpenFile os p O_RDONLY perm2 w2 with
    | mk r w3 => cases r <;> simp

/-- C6 at a concrete input: the empty session creates `/a.txt` on the disk
that holds only `/srv`; afterwards the canonical path is owned. -/
theorem create_open_claims_path_witness :
    ({ Write := true, Creat := true } : FileOpenFlags).Creat = true ∧
      ((sessionOn "/srv".toList []).OpenFile memHost "/a.txt".toList
        { Write := true, Creat := true } 0o660 (worldOf diskEmpty)).1
        = .ok ⟨"/srv/a.txt".toList⟩ ∧
      "/a.txt".toList ∈ ((sessionOn "/srv".toList []).OpenFile memHost "/a.txt".toList
        { Write := true, Creat := true } 0o660 (worldOf diskEmpty)).2.1.session :=
  ⟨rfl, by decide,
    (create_open_claims_path memHost (sessionOn "/srv".toList [])
      ((sessionOn "/srv".toList []).OpenFile memHost "/a.txt".toList
        { Write := true, Creat := true } 0o660 (worldOf diskEmpty)).2.1
      "/a.txt".toList { Write := true, Creat := true } 0o660 ⟨"/srv/a.txt".toList⟩
      (worldOf diskEmpty)
      ((sessionOn "/srv".toList []).OpenFile memHost "/a.txt".toList
        { Write := true, Creat := true } 0o660 (worldOf diskEmpty)).2.2
      rfl rfl).1⟩

/-- The loop of `Readdir` appends, in order, the entries whose path is
owned. -/
theorem readdir_loop_eq_filter (fs : fsSession) (d : Path) (E acc : List FileInfo) :
    E.foldl (fs.readdirStep d) acc
      = acc ++ E.filter (fun info => fs.isOwned (Join d (Base info.Name))) := by
  induction E generalizing acc with
  | nil => simp
  | cons e E ih =>
    rw [List.foldl_cons, ih]
    cases ho : fs.isOwned (Join d (Base e.Name)) <;>
      simp [fsSession.readdirStep, List.filter_cons, ho]

/-- C7, counterexample: the empty session creates `/d/a.txt` in the existing
directory `/srv/d` and the open succeeds; `Readdir` of `/d` in the session
that results is answered with the permission error, because creating the
file claims `/d/a.txt` only and `/d` itself is not owned. -/
theorem readdir_of_parent_denied_after_create :
    ((sessionOn "/srv".toList []).OpenFile memHost "/d/a.txt".toList
        { Write := true, Creat := true } 0o660 (worldOf diskWithD)).1
        = .ok ⟨"/srv/d/a.txt".toList⟩ ∧
      (((sessionOn "/srv".toList []).OpenFile memHost "/d/a.txt".toList
          { Write := true, Creat := true } 0o660 (worldOf diskWithD)).2.1.Readdir memHost
        "/d".toList
        ((sessionOn "/srv".toList []).OpenFile memHost "/d/a.txt".toList
          { Write := true, Creat := true } 0o660 (worldOf diskWithD)).2.2).1
        = .error .ErrPermission := by
  decide

/-- C7, amended: after the session creates the path `p` through an
`OpenFile` with the create flag, if the directory `d` is itself in the
ownership set, the host listing of `d` succeeds with entries `E`, and `e` is
an entry of `E` whose path `Join d (Base e.Name)` has the canonical form of
`p`, then `Readdir d` succeeds and its result contains `e`. -/
theorem readdir_lists_created_file_in_owned_dir {σ : Type} (os : Host σ)
    (fs fs1 : fsSession) (p d : Path) (flags : FileOpenFlags) (perm : Nat) (handle file : File)
    (w w1 w2 w3 : World σ) (E : List FileInfo) (e : FileInfo)
    (hc : flags.Creat = true)
    (hopen : fs.OpenFile os p flags perm w = (.ok handle, fs1, w1))
    (hd : fs1.canonicalize d ∈ fs1.session)
    (hdir : fs1.impl.OpenFile os d O_RDONLY 0o400 w2 = (.ok file, w3))
    (hlist : (os.Readdir file 0 w3.disk).1 = .ok E)
    (he : e ∈ E)
    (hp : fs1.canonicalize (Join d (Base e.Name)) = fs1.canonicalize p) :
    ∃ L : List FileInfo, (fs1.Readdir os d w2).1 = .ok L ∧ e ∈ L := by
  obtain ⟨w0, hnone, hfs⟩ := OpenFile_create_ok os fs fs1 p flags perm handle w w1 hc hopen
  have hmem : fs1.canonicalize p ∈ fs1.session := by
    rw [hfs, tryClaim_canonicalize]
    exact tryClaim_owned_of_ok os fs p w0 hnone
  have hod : fs1.isOwned d = true := (isOwned_eq_true_iff fs1 d).2 hd
  have hoe : fs1.isOwned (Join d (Base e.Name)) = true :=
    (isOwned_eq_true_iff fs1 _).2 (hp ▸ hmem)
  refine ⟨E.filter (fun info => fs1.isOwned (Join d (Base info.Name))), ?_, ?_⟩
  · have h400 : (256 : Nat) = 0o400 := by decide
    unfold fsSession.Readdir
    simp only [hod, h400, hdir, hostCall, hlist, readdir_loop_eq_filter]
    simp
  · exact List.mem_filter.2 ⟨he, hoe⟩

/-- C7, amended, at a concrete input: a session that owns `/d` creates
`/d/a.txt`; `Readdir` of `/d` then lists the entry `a.txt`. -/
theorem readdir_lists_created_file_in_owned_dir_witness :
    ∃ L : List FileInfo,
      (((sessionOn "/srv".toList ["/d".toList]).OpenFile memHost "/d/a.txt".toList
          { Write := true, Creat := true } 0o660 (worldOf diskWithD)).2.1.Readdir memHost
        "/d".toList
        ((sessionOn "/srv".toList ["/d".toList]).OpenFile memHost "/d/a.txt".toList
          { Write := true, Creat := true } 0o660 (worldOf diskWithD)).2.2).1 = .ok L ∧
      ({ Name := "a.txt".toList } : FileInfo) ∈ L :=
  readdir_lists_created_file_in_owned_dir memHost (sessionOn "/srv".toList ["/d".toList])
    ((sessionOn "/srv".toList ["/d".toList]).OpenFile memHost "/d/a.txt".toList
      { Write := true, Creat := true } 0o660 (worldOf diskWithD)).2.1
    "/d/a.txt".toList "/d".toList { Write := true, Creat := true } 0o660
    ⟨"/srv/d/a.txt".toList⟩ ⟨"/srv/d".toList⟩ (worldOf diskWithD)
    ((sessionOn "/srv".toList ["/d".toList]).OpenFile memHost "/d/a.txt".toList
      { Write := true, Creat := true } 0o660 (worldOf diskWithD)).2.2
    ((sessionOn "/srv".toList ["/d".toList]).OpenFile memHost "/d/a.txt".toList
      { Write := true, Creat := true } 0o660 (worldOf diskWithD)).2.2
    (((sessionOn "/srv".toList ["/d".toList]).OpenFile memHost "/d/a.txt".toList
      { Write := true, Creat := true } 0o660 (worldOf diskWithD)).2.1.impl.OpenFile memHost
      "/d".toList O_RDONLY 0o400
      ((sessionOn "/srv".toList ["/d".toList]).OpenFile memHost "/d/a.txt".toList
        { Write := true, Creat := true } 0o660 (worldOf diskWithD)).2.2).2
    [{ Name := "a.txt".toList }] { Name := "a.txt".toList }
    rfl rfl (by decide) rfl (by decide) (by decide) (by decide)

/-- C8, counterexample: the session owns `/a.txt`, and `/b.txt` is unowned
and missing on disk.  `Rename` of `/a.txt` to `/b.txt` succeeds through the
host rename, yet afterwards `/b.txt` is not owned and `Stat` of `/b.txt` is
answered with the permission error. -/
theorem renamed_destination_not_accessible :
    ((sessionOn "/srv".toList ["/a.txt".toList]).Rename memHost "/a.txt".toList
        "/b.txt".toList (worldOf diskWithA)).1 = none ∧
      ((sessionOn "/srv".toList ["/a.txt".toList]).Rename memHost "/a.txt".toList
        "/b.txt".toList (worldOf diskWithA)).2.2.calls
        = [.Stat "/srv/b.txt".toList, .Rename "/srv/a.txt".toList "/srv/b.txt".toList] ∧
      ((sessionOn "/srv".toList ["/a.txt".toList]).Rename memHost "/a.txt".toList
        "/b.txt".toList (worldOf diskWithA)).2.1.isOwned "/b.txt".toList = false ∧
      (((sessionOn "/srv".toList ["/a.txt".toList]).Rename memHost "/a.txt".toList
          "/b.txt".toList (worldOf diskWithA)).2.1.Stat memHost "/b.txt".toList
        ((sessionOn "/srv".toList ["/a.txt".toList]).Rename memHost "/a.txt".toList
          "/b.txt".toList (worldOf diskWithA)).2.2).1 = .error .ErrPermission := by
  decide

/-- C8, amended: for an owned source `a` and an unowned destination `b` that
the existence probe reports missing, `Rename a b` passes the ownership gate
and returns what the gateway's `Rename` returns, run after the probe;
`Rename` hands back the session unchanged, so `b` is still unowned afterwards
and a following `Stat b` is answered with the permission error without a
host call. -/
theorem rename_delegates_without_claiming {σ : Type} (os : Host σ) (fs : fsSession)
    (a b : Path) (w w1 : World σ)
    (ha : fs.canonicalize a ∈ fs.session) (hb : fs.canonicalize b ∉ fs.session)
    (hmiss : fs.tofsAdapter.Exists os b w = (.ok false, w1)) :
    fs.Rename os a b w
        = ((fs.tofsAdapter.Rename os a b w1).1, fs, (fs.tofsAdapter.Rename os a b w1).2) ∧
      (fs.Rename os a b w).2.1.isOwned b = false ∧
      ∀ w2 : World σ,
        (fs.Rename os a b w).2.1.Stat os b w2 = (.error .ErrPermission, fs, w2) := by
  have hoa : fs.isOwned a = true := (isOwned_eq_true_iff fs a).2 ha
  have hob : fs.isOwned b = false := (isOwned_eq_false_iff fs b).2 hb
  have hr : fs.Rename os a b w
      = ((fs.tofsAdapter.Rename os a b w1).1, fs, (fs.tofsAdapter.Rename os a b w1).2) := by
    simp [fsSession.Rename, fsSession.pairGate, fsSession.mayClaim, hoa, hob, hmiss]
  refine ⟨hr, ?_, ?_⟩
  · rw [hr]
    exact hob
  · intro w2
    rw [hr]
    simp [fsSession.Stat, hob]

/-- C8, amended, at a concrete input: the session owning `/a.txt` renames it
to the missing `/b.txt`; the host rename is made and reports no error. -/
theorem rename_delegates_without_claiming_witness :
    (sessionOn "/srv".toList ["/a.txt".toList]).canonicalize "/a.txt".toList
        ∈ (sessionOn "/srv".toList ["/a.txt".toList]).session ∧
      (sessionOn "/srv".toList ["/a.txt".toList]).canonicalize "/b.txt".toList
        ∉ (sessionOn "/srv".toList ["/a.txt".toList]).session ∧
      ((sessionOn "/srv".toList ["/a.txt".toList]).tofsAdapter.Exists memHost "/b.txt".toList
        (worldOf diskWithA)).1 = .ok false ∧
      ((sessionOn "/srv".toList ["/a.txt".toList]).Rename memHost "/a.txt".toList
        "/b.txt".toList (worldOf diskWithA)).2.1.isOwned "/b.txt".toList = false :=
  ⟨by decide, by decide, by decide,
    (rename_delegates_without_claiming memHost (sessionOn "/srv".toList ["/a.txt".toList])
      "/a.txt".toList "/b.txt".toList (worldOf diskWithA)
      ((sessionOn "/srv".toList ["/a.txt".toList]).tofsAdapter.Exists memHost "/b.txt".toList
        (worldOf diskWithA)).2
      (by decide) (by decide) rfl).2.1⟩

/-- The session handed back by `OpenFile` is the old one or the one that
`tryClaim` returned. -/
theorem OpenFile_session {σ : Type} (os : Host σ) (fs : fsSession) (p : Path)
    (flags : FileOpenFlags) (perm : Nat) (w : World σ) :
    (fs.OpenFile os p flags perm w).2.1 = fs ∨
      ∃ w0 : World σ, (fs.OpenFile os p flags perm w).2.1 = (fs.tryClaim os p w0).2.1 := by
  cases hc : ((osOpenFlags flags &&& O_CREATE) != 0)
  · left
    rcases hg : fs.openGate os p false w with ⟨g, w0⟩
    cases g
    · simp [fsSession.OpenFile, hc, hg]
    · rcases hi : fs.impl.OpenFile os p (osOpenFlags flags) perm w0 with ⟨r, w1⟩
      cases r <;> simp [fsSession.OpenFile, hc, hg, hi]
  · rcases hg : fs.openGate os p true w with ⟨g, w0⟩
    cases g
    · left
      simp [fsSession.OpenFile, hc, hg]
    · rcases hi : fs.impl.OpenFile os p (osOpenFlags flags) perm w0 with ⟨r, w1⟩
      cases r with
      | error e =>
        left
        simp [fsSession.OpenFile, hc, hg, hi]
      | ok handle =>
        right
        refine ⟨w1, ?_⟩
        rcases ht : fs.tryClaim os p w1 with ⟨e, fs1, w2⟩
        cases e <;> simp [fsSession.OpenFile, hc, hg, hi, ht]

/-- Every operation hands back a session with the same canonical form. -/
theorem run_canonicalize {σ : Type} (os : Host σ) (fs : fsSession) (op : SessionOp)
    (w : World σ) : (fs.run os op w).2.1.canonicalize = fs.canonicalize := by
  cases op with
  | OpenFile p f m =>
    rcases OpenFile_session os fs p f m w with h | ⟨w0, h⟩
    · simp only [fsSession.run, h]
    · simp only [fsSession.run, h, tryClaim_canonicalize]
  | Exists p =>
    simp only [fsSession.run, fsSession.Exists]
    split
    · rfl
    · split
      · split <;> rfl
      · rfl
  | Rename a b => simp only [fsSession.run, fsSession.Rename]; split <;> rfl
  | Rmdir p => simp only [fsSession.run, fsSession.Rmdir]; split <;> rfl
  | Unlink p => simp only [fsSession.run, fsSession.Unlink]; split <;> rfl
  | Mkdir p m => rfl
  | Stat p => simp only [fsSession.run, fsSession.Stat]; split <;> rfl
  | Link a b => simp only [fsSession.run, fsSession.Link]; split <;> rfl
  | Symlink a b => simp only [fsSession.run, fsSession.Symlink]; split <;> rfl
  | Readdir p =>
    simp only [fsSession.run, fsSession.Readdir]
    split
    · rfl
    · split
      · rfl
      · split <;> rfl
  | Readlink p =>
    simp only [fsSession.run, fsSession.Readlink]
    split
    · rfl
    · split <;> rfl

/-- Every operation hands back a session whose key list contains the old
one. -/
theorem run_session_mono {σ : Type} (os : Host σ) (fs : fsSession) (op : SessionOp)
    (w : World σ) (c : Path) (h : c ∈ fs.session) : c ∈ (fs.run os op w).2.1.session := by
  cases op with
  | OpenFile p f m =>
    rcases OpenFile_session os fs p f m w with h1 | ⟨w0, h1⟩
    · simp only [fsSession.run, h1]
      exact h
    · simp only [fsSession.run, h1]
      exact tryClaim_mono os fs p w0 c h
  | Exists p =>
    simp only [fsSession.run, fsSession.Exists]
    split
    · exact h
    · split
      · split <;> exact h
      · exact h
  | Rename a b => simp only [fsSession.run, fsSession.Rename]; split <;> exact h
  | Rmdir p => simp only [fsSession.run, fsSession.Rmdir]; split <;> exact h
  | Unlink p => simp only [fsSession.run, fsSession.Unlink]; split <;> exact h
  | Mkdir p m => exact h
  | Stat p => simp only [fsSession.run, fsSession.Stat]; split <;> exact h
  | Link a b => simp only [fsSession.run, fsSession.Link]; split <;> exact h
  | Symlink a b => simp only [fsSession.run, fsSession.Symlink]; split <;> exact h
  | Readdir p =>
    simp only [fsSession.run, fsSession.Readdir]
    split
    · exact h
    · split
      · exact h
      · split <;> exact h
  | Readlink p =>
    simp only [fsSession.run, fsSession.Readlink]
    split
    · exact h
    · split <;> exact h

/-- C9: the ownership set never shrinks.  For every operation of
`fsSession`, every argument, host and disk, a canonical path that is in the
set before the call is in the set of the session handed back, and every path
with that canonical form is still owned; with `Unlink p` or `Rmdir p` as the
operation, `p` stays owned after the removal, whatever its outcome. -/
theorem ownership_set_never_shrinks {σ : Type} (os : Host σ) (fs : fsSession)
    (op : SessionOp) (w : World σ) (c : Path) (h : c ∈ fs.session) :
    c ∈ (fs.run os op w).2.1.session ∧
      ∀ p : Path, fs.canonicalize p = c → (fs.run os op w).2.1.isOwned p = true := by
  have hm : c ∈ (fs.run os op w).2.1.session := run_session_mono os fs op w c h
  refine ⟨hm, ?_⟩
  intro p hp
  rw [isOwned_eq_true_iff, run_canonicalize, hp]
  exact hm

/-- C9 at a concrete input: the session owning `/a.txt` unlinks it; the host
removes the file without error and `/a.txt` is still in the ownership set. -/
theorem ownership_set_never_shrinks_witness :
    "/a.txt".toList ∈ (sessionOn "/srv".toList ["/a.txt".toList]).session ∧
      ((sessionOn "/srv".toList ["/a.txt".toList]).run memHost (.Unlink "/a.txt".toList)
        (worldOf diskWithA)).1 = .err none ∧
      "/a.txt".toList ∈ ((sessionOn "/srv".toList ["/a.txt".toList]).run memHost
        (.Unlink "/a.txt".toList) (worldOf diskWithA)).2.1.session :=
  ⟨by decide, by decide,
    (ownership_set_never_shrinks memHost (sessionOn "/srv".toList ["/a.txt".toList])
      (.Unlink "/a.txt".toList) (worldOf diskWithA) "/a.txt".toList (by decide)).1⟩

/-- C10: `tryClaim p` reports no error exactly when `p` is already owned or
the existence probe of the gateway reports that `p` exists.  If `p` is owned
it returns nil and leaves session and world as they are.  If `p` is unowned
and the probe reports that it exists, it returns nil and the key list
becomes the canonical form of `p` added to the old list.  If `p` is unowned
and the probe reports it missing, it returns the permission error; if the
probe fails, it returns the error of the probe; the session is unchanged in
both error cases. -/
theorem tryClaim_cases {σ : Type} (os : Host σ) (fs : fsSession) (p : Path) (w : World σ) :
    ((fs.tryClaim os p w).1 = none ↔
        (fs.canonicalize p ∈ fs.session ∨ (fs.tofsAdapter.Exists os p w).1 = .ok true)) ∧
      (fs.canonicalize p ∈ fs.session → fs.tryClaim os p w = (none, fs, w)) ∧
      (fs.canonicalize p ∉ fs.session → ∀ w1 : World σ,
        fs.tofsAdapter.Exists os p w = (.ok true, w1) →
        fs.tryClaim os p w
          = (none, { fs with session := fs.canonicalize p :: fs.session }, w1)) ∧
      (fs.canonicalize p ∉ fs.session → ∀ w1 : World σ,
        fs.tofsAdapter.Exists os p w = (.ok false, w1) →
        fs.tryClaim os p w = (some .ErrPermission, fs, w1)) ∧
      (fs.canonicalize p ∉ fs.session → ∀ (err : Error) (w1 : World σ),
        fs.tofsAdapter.Exists os p w = (.error err, w1) →
        fs.tryClaim os p w = (some err, fs, w1)) := by
  refine ⟨?_, ?_, ?_, ?_, ?_⟩
  · by_cases ho : fs.canonicalize p ∈ fs.session
    · have h1 : fs.isOwned p = true := (isOwned_eq_true_iff fs p).2 ho
      simp [fsSession.tryClaim, h1, ho]
    · have h1 : fs.isOwned p = false := (isOwned_eq_false_iff fs p).2 ho
      rcases he : fs.tofsAdapter.Exists os p w with ⟨r, w1⟩
      cases r with
      | error e => simp [fsSession.tryClaim, h1, ho, he]
      | ok ex => cases ex <;> simp [fsSession.tryClaim, h1, ho, he]
  · intro ho
    have h1 : fs.isOwned p = true := (isOwned_eq_true_iff fs p).2 ho
    simp [fsSession.tryClaim, h1]
  · intro ho w1 he
    have h1 : fs.isOwned p = false := (isOwned_eq_false_iff fs p).2 ho
    simp [fsSession.tryClaim, h1, he]
  · intro ho w1 he
    have h1 : fs.isOwned p = false := (isOwned_eq_false_iff fs p).2 ho
    simp [fsSession.tryClaim, h1, he]
  · intro ho err w1 he
    have h1 : fs.isOwned p = false := (isOwned_eq_false_iff fs p).2 ho
    simp [fsSession.tryClaim, h1, he]

/-- C10 at concrete inputs, one for each case: an owned path; an unowned
path that exists on disk, which is added to the set; an unowned path that is
missing, answered with the permission error; and a path that the sanitizer
rejects, for which the error of the probe is returned. -/
theorem tryClaim_cases_witness :
    (sessionOn "/srv".toList ["/a.txt".toList]).tryClaim memHost "/a.txt".toList
        (worldOf diskEmpty)
        = (none, sessionOn "/srv".toList ["/a.txt".toList], worldOf diskEmpty) ∧
      ((sessionOn "/srv".toList []).tryClaim memHost "/a.txt".toList
        (worldOf diskWithA)).2.1.session = ["/a.txt".toList] ∧
      ((sessionOn "/srv".toList []).tryClaim memHost "/a.txt".toList
        (worldOf diskEmpty)).1 = some .ErrPermission ∧
      ((sessionOn "/srv".toList []).tryClaim memHost "/../etc/passwd".toList
        (worldOf diskEmpty)).1
        = some (.wrapped "stat call failed" (.invalidFilePath "/../etc/passwd".toList)) :=
  ⟨(tryClaim_cases memHost (sessionOn "/srv".toList ["/a.txt".toList]) "/a.txt".toList
      (worldOf diskEmpty)).2.1 (by decide),
    by
      rw [(tryClaim_cases memHost (sessionOn "/srv".toList []) "/a.txt".toList
        (worldOf diskWithA)).2.2.1 (by decide)
        ((sessionOn "/srv".toList []).tofsAdapter.Exists memHost "/a.txt".toList
          (worldOf diskWithA)).2 rfl]
      rfl,
    by
      rw [(tryClaim_cases memHost (sessionOn "/srv".toList []) "/a.txt".toList
        (worldOf diskEmpty)).2.2.2.1 (by decide)
        ((sessionOn "/srv".toList []).tofsAdapter.Exists memHost "/a.txt".toList
          (worldOf diskEmpty)).2 rfl],
    by
      rw [(tryClaim_cases memHost (sessionOn "/srv".toList []) "/../etc/passwd".toList
        (worldOf diskEmpty)).2.2.2.2 (by decide)
        (.wrapped "stat call failed" (.invalidFilePath "/../etc/passwd".toList))
        ((sessionOn "/srv".toList []).tofsAdapter.Exists memHost "/../etc/passwd".toList
          (worldOf diskEmpty)).2 rfl]⟩

/-- When the existence probe of the gateway answers that the path exists,
it has made exactly one host call, a `Stat`. -/
theorem Exists_true_calls {σ : Type} (os : Host σ) (fs : fsAdapter) (p : Path)
    (w w1 : World σ) (h : fs.Exists os p w = (.ok true, w1)) :
    ∃ q : Path, w1.calls = w.calls ++ [.Stat q] := by
  unfold fsAdapter.Exists fsImpl.Stat at h
  rcases hs : fs.impl.sanitize none p with ⟨q, e⟩
  cases e with
  | some err =>
    simp only [hs] at h
    split at h <;> simp at h
  | none =>
    refine ⟨q, ?_⟩
    simp only [hs, hostCall] at h
    cases hr : (os.Stat q w.disk).1 with
    | error err =>
      simp only [hr] at h
      split at h <;> simp at h
    | ok info =>
      simp only [hr, Prod.mk.injEq] at h
      rw [← h.2]

/-- C11: when the existence probe reports that the destination `req.Target`
of a `Rename` request exists, `Filecmd` returns `os.ErrExist` in the world
that the probe left; the probe has added one `Stat` to the call log, so no
host rename is made.  This holds for every handler, source path, host and
disk; the handler holds no ownership set that could alter the answer. -/
theorem rename_onto_existing_is_ErrExist {σ : Type} (os : Host σ) (ur : userRootHandler)
    (req : Request) (w w1 : World σ) (hm : req.Method = "Rename")
    (hex : ur.fs.Exists os req.Target w = (.ok true, w1)) :
    ur.Filecmd os req w = (some .ErrExist, w1) ∧
      ∃ q : Path, (ur.Filecmd os req w).2.calls = w.calls ++ [.Stat q] := by
  have hc : ur.Filecmd os req w = (some .ErrExist, w1) := by
    simp [userRootHandler.Filecmd, hm, hex]
  refine ⟨hc, ?_⟩
  rw [hc]
  exact Exists_true_calls os ur.fs req.Target w w1 hex

/-- C11 at a concrete input: on the disk with `/srv/a.txt`, a request to
rename the missing `/x` to `/a.txt` is answered with `os.ErrExist` after the
single host call `Stat /srv/a.txt`. -/
theorem rename_onto_existing_is_ErrExist_witness :
    ((newUserHandler "/srv".toList).fs.Exists memHost "/a.txt".toList (worldOf diskWithA)).1
        = .ok true ∧
      (newUserHandler "/srv".toList).Filecmd memHost
        { Method := "Rename", Filepath := "/x".toList, Target := "/a.txt".toList }
        (worldOf diskWithA)
        = (some .ErrExist, ⟨diskWithA, [.Stat "/srv/a.txt".toList]⟩) :=
  ⟨by decide,
    (rename_onto_existing_is_ErrExist memHost (newUserHandler "/srv".toList)
      { Method := "Rename", Filepath := "/x".toList, Target := "/a.txt".toList }
      (worldOf diskWithA) ⟨diskWithA, [.Stat "/srv/a.txt".toList]⟩ rfl rfl).1⟩

/-- C12, as the code behaves: for the `Symlink` request with
`Filepath = /a.txt` (what the link is to point at) and `Target = /l` (the new
link name), under root `/srv`, `Filecmd` makes the host call
`os.Symlink(oldname = /srv/l, newname = /srv/a.txt)`: the new link is created
at the confined `req.Filepath` and points at the confined `req.Target`, the
reverse of the convention noted in the handler. -/
theorem symlink_request_arguments_reversed {σ : Type} (os : Host σ) (w : World σ) :
    (newUserHandler "/srv".toList).Filecmd os
        { Method := "Symlink", Filepath := "/a.txt".toList, Target := "/l".toList } w
      = hostCall (.Symlink "/srv/l".toList "/srv/a.txt".toList)
          (os.Symlink "/srv/l".toList "/srv/a.txt".toList) w := by
  have h1 : (newUserHandler "/srv".toList).fs.impl.sanitize none "/l".toList
      = ("/srv/l".toList, none) := by decide
  have h2 : (newUserHandler "/srv".toList).fs.impl.sanitize none "/a.txt".toList
      = ("/srv/a.txt".toList, none) := by decide
  have hm : (newUserHandler "/srv".toList).Filecmd os
      { Method := "Symlink", Filepath := "/a.txt".toList, Target := "/l".toList } w
      = (newUserHandler "/srv".toList).fs.impl.Symlink os "/l".toList "/a.txt".toList w := by
    simp [userRootHandler.Filecmd, fsAdapter.Symlink]
  rw [hm]
  simp only [fsImpl.Symlink, h1, h2]

/-- C13: for an owned directory `d` whose host listing succeeds with
entries `E`, `Readdir d` returns without error the entries `e` of `E`, in
the order of `E`, for which `Join d (Base e.Name)` has its canonical form in
the ownership set, and no others; the session is handed back unchanged. -/
theorem readdir_returns_owned_sublist {σ : Type} (os : Host σ) (fs : fsSession) (d : Path)
    (file : File) (w w1 : World σ) (E : List FileInfo)
    (hd : fs.canonicalize d ∈ fs.session)
    (hopen : fs.impl.OpenFile os d O_RDONLY 0o400 w = (.ok file, w1))
    (hlist : (os.Readdir file 0 w1.disk).1 = .ok E) :
    (fs.Readdir os d w).1
        = .ok (E.filter
            (fun e => decide (fs.canonicalize (Join d (Base e.Name)) ∈ fs.session))) ∧
      (fs.Readdir os d w).2.1.session = fs.session := by
  have hod : fs.isOwned d = true := (isOwned_eq_true_iff fs d).2 hd
  have h400 : (256 : Nat) = 0o400 := by decide
  unfold fsSession.Readdir
  simp only [hod, h400, hopen, hostCall, hlist, readdir_loop_eq_filter]
  simp [fsSession.isOwned]

/-- C13 at a concrete input: the session owns `/d` and `/d/a.txt`; the host
lists `a.txt` and `b.txt` in `/srv/d`; `Readdir` returns `a.txt` only. -/
theorem readdir_returns_owned_sublist_witness :
    (sessionOn "/srv".toList ["/d".toList, "/d/a.txt".toList]).canonicalize "/d".toList
        ∈ (sessionOn "/srv".toList ["/d".toList, "/d/a.txt".toList]).session ∧
      (memHost.Readdir ⟨"/srv/d".toList⟩ 0 diskWithTwo).1
        = .ok [{ Name := "a.txt".toList }, { Name := "b.txt".toList }] ∧
      ((sessionOn "/srv".toList ["/d".toList, "/d/a.txt".toList]).Readdir memHost "/d".toList
        (worldOf diskWithTwo)).1 = .ok [{ Name := "a.txt".toList }] :=
  ⟨by decide, by decide, by
    rw [(readdir_returns_owned_sublist memHost
      (sessionOn "/srv".toList ["/d".toList, "/d/a.txt".toList]) "/d".toList
      ⟨"/srv/d".toList⟩ (worldOf diskWithTwo)
      ⟨diskWithTwo, [.OpenFile "/srv/d".toList O_RDONLY 0o400]⟩
      [{ Name := "a.txt".toList }, { Name := "b.txt".toList }]
      (by decide) rfl (by decide)).1]
    decide⟩

theorem splitSep_ne_nil (x : Path) : splitSep x ≠ [] := by
  cases x with
  | nil => simp [splitSep]
  | cons c cs =>
    unfold splitSep
    split
    · simp
    · split <;> simp

theorem splitSep_append (a b : Path) : splitSep (a ++ '/' :: b) = splitSep a ++ splitSep b := by
  induction a with
  | nil => simp [splitSep]
  | cons c cs ih =>
    by_cases hc : c = '/'
    · simp [splitSep, hc, ih]
    · rcases hs : splitSep cs with _ | ⟨x, xs⟩
      · exact absurd hs (splitSep_ne_nil cs)
      · simp [splitSep, hc, ih, hs]

theorem splitSep_no_sep (x : Path) : ∀ e ∈ splitSep x, '/' ∉ e := by
  induction x with
  | nil => simp [splitSep]
  | cons c cs ih =>
    by_cases hc : c = '/'
    · intro e he
      simp only [splitSep, hc, if_true, List.mem_cons] at he
      rcases he with he | he
      · simp [he]
      · exact ih e he
    · rcases hs : splitSep cs with _ | ⟨x, xs⟩
      · exact absurd hs (splitSep_ne_nil cs)
      · intro e he
        simp only [splitSep, hc, if_false, hs, List.mem_cons] at he
        rw [hs] at ih
        rcases he with he | he
        · rw [he]
          intro hmem
          rcases List.mem_cons.1 hmem with h1 | h1
          · exact hc h1.symm
          · exact ih x (List.mem_cons_self _ _) h1
        · exact ih e (List.mem_cons_of_mem _ he)

theorem splitSep_of_no_sep (e : Path) (h : '/' ∉ e) : splitSep e = [e] := by
  induction e with
  | nil => simp [splitSep]
  | cons c cs ih =>
    have hc : c ≠ '/' := fun hc => h (by simp [hc])
    have hcs : '/' ∉ cs := fun hm => h (List.mem_cons_of_mem _ hm)
    simp [splitSep, hc, ih hcs]

theorem isName_no_sep (e : Path) (h : isName e = true) : '/' ∉ e := by
  simp only [isName, Bool.and_eq_true, decide_eq_true_eq] at h
  exact h.2

theorem cleanStep_of_isName (rooted : Bool) (out : List Path) (e : Path)
    (h : isName e = true) : cleanStep rooted out e = e :: out := by
  simp only [isName, Bool.and_eq_true, decide_eq_true_eq] at h
  simp [cleanStep, h.1.1.1, h.1.1.2, h.1.2]

theorem cleanStep_names (out : List Path) (el : Path) (hout : ∀ e ∈ out, isName e = true)
    (hel : '/' ∉ el) : ∀ e ∈ cleanStep true out el, isName e = true := by
  unfold cleanStep
  split
  · exact hout
  · next h1 =>
    split
    · next h2 =>
      cases out with
      | nil => simp
      | cons top rest =>
        have htop : top ≠ ['.', '.'] := by
          intro ht
          have := hout top (List.mem_cons_self _ _)
          rw [ht] at this
          exact absurd this (by decide)
        simp only [htop, if_false]
        intro e he
        exact hout e (List.mem_cons_of_mem _ he)
    · next h2 =>
      intro e he
      rcases List.mem_cons.1 he with he | he
      · rw [he]
        simp only [not_or] at h1
        simp [isName, h1.1, h1.2, h2, hel]
      · exact hout e he

theorem foldl_cleanStep_names (L : List Path) (out : List Path)
    (hout : ∀ e ∈ out, isName e = true) (hL : ∀ e ∈ L, '/' ∉ e) :
    ∀ e ∈ L.foldl (cleanStep true) out, isName e = true := by
  induction L generalizing out with
  | nil => simpa using hout
  | cons el L ih =>
    rw [List.foldl_cons]
    exact ih _ (cleanStep_names out el hout (hL el (List.mem_cons_self _ _)))
      (fun e he => hL e (List.mem_cons_of_mem _ he))

theorem foldl_cleanStep_of_names (rooted : Bool) (L : List Path) (out : List Path)
    (hL : ∀ e ∈ L, isName e = true) : L.foldl (cleanStep rooted) out = L.reverse ++ out := by
  induction L generalizing out with
  | nil => simp
  | cons el L ih =>
    rw [List.foldl_cons, cleanStep_of_isName rooted out el (hL el (List.mem_cons_self _ _)),
      ih _ (fun e he => hL e (List.mem_cons_of_mem _ he))]
    simp

theorem cleanElems_names (x : Path) : ∀ e ∈ cleanElems true x, isName e = true := by
  intro e he
  unfold cleanElems at he
  rw [List.mem_reverse] at he
  exact foldl_cleanStep_names (splitSep x) [] (by simp) (splitSep_no_sep x) e he

theorem splitSep_joinSep (L : List Path) (hL : ∀ e ∈ L, '/' ∉ e) (hne : L ≠ []) :
    splitSep (joinSep L) = L := by
  induction L with
  | nil => exact absurd rfl hne
  | cons e L ih =>
    cases L with
    | nil => simpa [joinSep] using splitSep_of_no_sep e (hL e (List.mem_cons_self _ _))
    | cons e2 L2 =>
      have h1 : joinSep (e :: e2 :: L2) = e ++ '/' :: joinSep (e2 :: L2) := rfl
      rw [h1, splitSep_append, splitSep_of_no_sep e (hL e (List.mem_cons_self _ _)),
        ih (fun x hx => hL x (List.mem_cons_of_mem _ hx)) (by simp)]
      rfl

/-- Cleaning the rooted path `/e1/.../en` of names pushes exactly these
names. -/
theorem foldl_cleanStep_rooted_names (L out : List Path) (hL : ∀ e ∈ L, isName e = true) :
    (splitSep ('/' :: joinSep L)).foldl (cleanStep true) out = L.reverse ++ out := by
  have hsplit : splitSep ('/' :: joinSep L) = [] :: splitSep (joinSep L) := by
    simp [splitSep]
  rw [hsplit, List.foldl_cons]
  have h0 : cleanStep true out [] = out := by simp [cleanStep]
  rw [h0]
  cases L with
  | nil => simp [joinSep, splitSep, cleanStep]
  | cons e L2 =>
    rw [splitSep_joinSep (e :: L2) (fun x hx => isName_no_sep x (hL x hx)) (by simp)]
    exact foldl_cleanStep_of_names true (e :: L2) out hL

theorem Clean_of_IsAbs (x : Path) (h : IsAbs x = true) :
    Clean x = '/' :: joinSep (cleanElems true x) := by
  have hne : x ≠ [] := by
    intro hx
    rw [hx] at h
    exact absurd h (by decide)
  simp [Clean, hne, h]

theorem IsAbs_append (a b : Path) (h : IsAbs a = true) : IsAbs (a ++ b) = true := by
  cases a with
  | nil => exact absurd h (by decide)
  | cons c cs => simpa [IsAbs] using h

theorem Join_of_IsAbs (R x : Path) (h : IsAbs R = true) :
    Join R x = '/' :: joinSep (cleanElems true (R ++ '/' :: x)) := by
  have hne : R ≠ [] := by
    intro hx
    rw [hx] at h
    exact absurd h (by decide)
  simp only [Join, hne, if_false]
  exact Clean_of_IsAbs _ (IsAbs_append R _ h)

/-- Joining an absolute root with the rooted path of names `/e1/.../en`
appends these names to the elements of the root. -/
theorem cleanElems_root_append (R : Path) (L : List Path) (hL : ∀ e ∈ L, isName e = true) :
    cleanElems true (R ++ '/' :: '/' :: joinSep L) = cleanElems true R ++ L := by
  unfold cleanElems
  rw [splitSep_append, List.foldl_append, foldl_cleanStep_rooted_names L _ hL]
  simp

theorem cleanElems_rooted_names (L : List Path) (hL : ∀ e ∈ L, isName e = true) :
    cleanElems true ('/' :: joinSep L) = L := by
  unfold cleanElems
  rw [foldl_cleanStep_rooted_names L [] hL]
  simp

theorem joinSep_append (A B : Path) (LA LB : List Path) (hA : LA ≠ []) (hB : LB ≠ [])
    (ha : joinSep LA = A) (hb : joinSep LB = B) : joinSep (LA ++ LB) = A ++ '/' :: B := by
  induction LA generalizing A with
  | nil => exact absurd rfl hA
  | cons e L ih =>
    cases L with
    | nil =>
      cases LB with
      | nil => exact absurd rfl hB
      | cons b LB2 =>
        simp only [joinSep] at ha
        subst ha
        subst hb
        rfl
    | cons e2 L2 =>
      have h1 : joinSep (e :: e2 :: L2) = e ++ '/' :: joinSep (e2 :: L2) := rfl
      have h2 : joinSep (e :: e2 :: L2 ++ LB) = e ++ '/' :: joinSep (e2 :: L2 ++ LB) := rfl
      rw [h2, ih (joinSep (e2 :: L2)) (by simp) rfl, ← ha, h1]
      simp

/-- The sanitizer on a relative client path under an absolute root: no
error, and the path returned is the cleaned root followed by names. -/
theorem pathSanitizer_relative (R p : Path) (hR : IsAbs R = true) (hp : IsAbs p = false) :
    ∃ L : List Path, (∀ e ∈ L, isName e = true) ∧
      (newUserHandler R).pathSanitizer p
        = ('/' :: joinSep (cleanElems true R ++ L), none) ∧
      HasPrefix ('/' :: joinSep (cleanElems true R ++ L)) (Clean R) = true := by
  refine ⟨cleanElems true (R ++ '/' :: p), cleanElems_names _, ?_⟩
  have hL := cleanElems_names (R ++ '/' :: p)
  have hER := cleanElems_names R
  have hall : ∀ e ∈ cleanElems true R ++ cleanElems true (R ++ '/' :: p), isName e = true := by
    intro e he
    rcases List.mem_append.1 he with h | h
    · exact hER e h
    · exact hL e h
  have hj1 : Join R p = '/' :: joinSep (cleanElems true (R ++ '/' :: p)) := Join_of_IsAbs R p hR
  have hj2 : Join R ('/' :: joinSep (cleanElems true (R ++ '/' :: p)))
      = '/' :: joinSep (cleanElems true R ++ cleanElems true (R ++ '/' :: p)) := by
    rw [Join_of_IsAbs R _ hR, cleanElems_root_append R _ hL]
  have hc : Clean ('/' :: joinSep (cleanElems true R ++ cleanElems true (R ++ '/' :: p)))
      = '/' :: joinSep (cleanElems true R ++ cleanElems true (R ++ '/' :: p)) := by
    rw [Clean_of_IsAbs _ (by simp [IsAbs]), cleanElems_rooted_names _ hall]
  have hpre : HasPrefix ('/' :: joinSep (cleanElems true R ++ cleanElems true (R ++ '/' :: p)))
      (Clean R) = true := by
    rw [Clean_of_IsAbs R hR]
    simp only [HasPrefix, List.isPrefixOf_iff_prefix, List.cons_prefix_cons, true_and]
    by_cases hA : cleanElems true R = []
    · simp [hA, joinSep]
    · by_cases hB : cleanElems true (R ++ '/' :: p) = []
      · simp [hB]
      · rw [joinSep_append _ _ _ _ hA hB rfl rfl]
        exact List.prefix_append _ _
  refine ⟨?_, hpre⟩
  have habs : IsAbs ('/' :: joinSep (cleanElems true (R ++ '/' :: p))) = true := by simp [IsAbs]
  simp only [userRootHandler.pathSanitizer, newUserHandler, hp, hj1, Bool.not_false, if_true]
  rw [if_pos habs, hj2, hc, hpre]
  simp

/-- C14: for an absolute root `R` and a relative client path `p`, whatever
`.` and `..` segments it holds, `pathSanitizer` returns no error and a path
that lies under `R`: the cleaned root followed by path elements that are
names (none of them `..`). -/
theorem relative_path_stays_under_root (R p : Path) (hR : IsAbs R = true)
    (hp : IsAbs p = false) :
    ((newUserHandler R).pathSanitizer p).2 = none ∧
      liesUnder R ((newUserHandler R).pathSanitizer p).1 = true ∧
      ∃ L : List Path, (∀ e ∈ L, isName e = true) ∧
        ((newUserHandler R).pathSanitizer p).1 = '/' :: joinSep (cleanElems true R ++ L) := by
  obtain ⟨L, hL, hres, hpre⟩ := pathSanitizer_relative R p hR hp
  refine ⟨by rw [hres], ?_, L, hL, by rw [hres]⟩
  rw [hres]
  have hclean : Clean R = '/' :: joinSep (cleanElems true R) := Clean_of_IsAbs R hR
  simp only [liesUnder, Bool.or_eq_true, Bool.and_eq_true, decide_eq_true_eq]
  by_cases hA : cleanElems true R = []
  · right
    rw [hclean, hA]
    exact ⟨rfl, by simp [IsAbs]⟩
  · by_cases hB : L = []
    · left
      left
      rw [hclean, hB, List.append_nil]
    · left
      right
      rw [hclean, joinSep_append _ _ _ _ hA hB rfl rfl]
      simp [HasPrefix]

/-- C14 at the input of the specification: with root `/srv` the relative
path `../../etc/passwd` is returned as `/srv/etc/passwd`, which lies under
`/srv`. -/
theorem relative_path_stays_under_root_witness :
    IsAbs "/srv".toList = true ∧ IsAbs "../../etc/passwd".toList = false ∧
      (newUserHandler "/srv".toList).pathSanitizer "../../etc/passwd".toList
        = ("/srv/etc/passwd".toList, none) ∧
      liesUnder "/srv".toList
        ((newUserHandler "/srv".toList).pathSanitizer "../../etc/passwd".toList).1 = true :=
  ⟨by decide, by decide, by decide,
    (relative_path_stays_under_root "/srv".toList "../../etc/passwd".toList
      (by decide) (by decide)).2.1⟩

/-- C15: credential round trip.  The credential whose password field is
`plaintextToHash n pw` accepts the pair `n`, `pw`.  In general
`credentialMatch` accepts a presented name and password exactly when the
name equals the configured name and the digest of the name followed by the
password equals the stored digest; a presented name that differs from the
configured one is rejected whatever the password.  The digest function of
`crypto/sha256` is a parameter. -/
theorem credential_round_trip (sum256 : Bytes → Bytes) (u : user) (n pw n2 pw2 : Bytes) :
    user.credentialMatch sum256 { Name := n, Password := plaintextToHash sum256 n pw } n pw
        = true ∧
      (u.credentialMatch sum256 n2 pw2 = true ↔
        (n2 = u.Name ∧ sum256 (n2 ++ pw2) = u.Password)) ∧
      (n2 ≠ u.Name → u.credentialMatch sum256 n2 pw2 = false) := by
  refine ⟨by simp [user.credentialMatch, plaintextToHash], ?_, ?_⟩
  · by_cases hn : n2 = u.Name
    · simp [user.credentialMatch, hn]
    · simp [user.credentialMatch, hn]
  · intro hn
    simp [user.credentialMatch, hn]

/-- C15 at a concrete input: the credential of `root` rejects the name
`toor` presented with the right password. -/
theorem credential_round_trip_witness :
    "toor".toList ≠ "root".toList ∧
      user.credentialMatch sampleDigest
        { Name := "root".toList, Password := plaintextToHash sampleDigest "root".toList "pw".toList }
        "toor".toList "pw".toList = false :=
  ⟨by decide,
    (credential_round_trip sampleDigest
      { Name := "root".toList, Password := plaintextToHash sampleDigest "root".toList "pw".toList }
      "root".toList "pw".toList "toor".toList "pw".toList).2.2 (by decide)⟩

/-- C16: for every combination of the six generic flags, the host flags of
`osOpenFlags` have `O_APPEND` set iff `Append`, `O_CREATE` iff `Creat`,
`O_EXCL` iff `Excl`, `O_TRUNC` iff `Trunc`, and their access mode is `O_RDWR`
when `Read` and `Write` are both set, `O_WRONLY` when only `Write` is set, and
`O_RDONLY` otherwise. -/
theorem osOpenFlags_bits (f : FileOpenFlags) :
    ((osOpenFlags f &&& O_APPEND) != 0) = f.Append ∧
      ((osOpenFlags f &&& O_CREATE) != 0) = f.Creat ∧
      ((osOpenFlags f &&& O_EXCL) != 0) = f.Excl ∧
      ((osOpenFlags f &&& O_TRUNC) != 0) = f.Trunc ∧
      (osOpenFlags f &&& O_ACCMODE)
        = (if f.Read && f.Write then O_RDWR else if f.Write then O_WRONLY else O_RDONLY) := by
  rcases f with ⟨r, wr, a, c, t, e⟩
  cases r <;> cases wr <;> cases a <;> cases c <;> cases t <;> cases e <;> decide

/-- C17, as the code behaves: a server that is not serving, with the empty
configuration of the test (no host key), returns from `ServeSocket` before
its accept loop with the error of `ssh.ParsePrivateKey`, for every parser
that finds no key in the empty text; the error returned is not nil.  The
stop channel stays stored in `serveChan`. -/
theorem ServeSocket_without_host_key_returns_error (parse : Bytes → Except Error Signer)
    (err : Error) (fresh : Nat) (hparse : parse [] = .error err) :
    Server.ServeSocketStart parse
        { conf := {}, serveChan := none, onIdleCallback := some .callsClose } fresh
      = .returned (some err)
          { conf := {}, serveChan := some fresh, onIdleCallback := some .callsClose } := by
  simp [Server.ServeSocketStart, hparse]

/-- C17 at a concrete parser: the server of the test returns the error
`ssh: no key found`. -/
theorem ServeSocket_without_host_key_returns_error_witness :
    sampleParse [] = .error (.message "ssh: no key found") ∧
      Server.ServeSocketStart sampleParse
          { conf := {}, serveChan := none, onIdleCallback := some .callsClose } 1
        = .returned (some (.message "ssh: no key found"))
            { conf := {}, serveChan := some 1, onIdleCallback := some .callsClose } :=
  ⟨by decide,
    ServeSocket_without_host_key_returns_error sampleParse (.message "ssh: no key found") 1
      (by decide)⟩

/-- `ListAt` at a non-negative offset, in closed form. -/
theorem ListAt_of_nat (f : listerat) (ls : List FileInfo) (off : Nat) :
    listerat.ListAt f ls (off : Int)
      = some ((f.drop off).take (min ls.length (f.length - off))
            ++ ls.drop (min ls.length (f.length - off)),
          min ls.length (f.length - off),
          if f.length ≤ off ∨ min ls.length (f.length - off) < ls.length then some .EOF
          else none) := by
  unfold listerat.ListAt
  by_cases h : f.length ≤ off
  · have h1 : (off : Int) ≥ (f.length : Int) := by exact_mod_cast h
    have h2 : f.length - off = 0 := by omega
    simp [h1, h, h2]
  · have h1 : ¬ (off : Int) ≥ (f.length : Int) := by
      intro hc
      exact h (by exact_mod_cast hc)
    have h3 : ¬ ((off : Int) < 0) := by omega
    simp only [h1, h3, if_false, Int.toNat_ofNat, List.length_drop, h, false_or]
    split <;> rfl

/-- Paging from any offset inside the list returns the rest of the list,
within `(len f - off) / k + 1` calls. -/
theorem readPages_from (f : listerat) (fuel : Nat) :
    ∀ (ls : List FileInfo) (off : Nat), 0 < ls.length → off ≤ f.length →
      (f.length - off) / ls.length < fuel →
      readPages f fuel ls (off : Int) = some (f.drop off) := by
  induction fuel with
  | zero => intro ls off _ _ h; exact absurd h (Nat.not_lt_zero _)
  | succ fuel ih =>
    intro ls off hk hoff hfuel
    unfold readPages
    rw [ListAt_of_nat]
    by_cases hlt : f.length - off < ls.length
    · have hmin : min ls.length (f.length - off) = f.length - off := by omega
      have hcond : f.length ≤ off ∨ f.length - off < ls.length := Or.inr hlt
      have hlen : (f.drop off).length = f.length - off := List.length_drop _ _
      have htake : (f.drop off).take (f.length - off) = f.drop off :=
        List.take_of_length_le (by omega)
      simp only [hmin, hcond, if_true, htake]
      rw [List.take_left' hlen]
    · have hmin : min ls.length (f.length - off) = ls.length := by omega
      have hcond : ¬ (f.length ≤ off ∨ ls.length < ls.length) := by omega
      have hcast : (off : Int) + (ls.length : Int) = ((off + ls.length : Nat) : Int) := by
        push_cast; rfl
      have hlen : ((f.drop off).take ls.length ++ ls.drop ls.length).length = ls.length := by
        simp [List.length_take, List.length_drop]; omega
      have hdiv : (f.length - (off + ls.length)) / ls.length < fuel := by
        have h1 : (f.length - off) / ls.length
            = (f.length - off - ls.length) / ls.length + 1 :=
          Nat.div_eq_sub_div hk (by omega)
        have h2 : f.length - (off + ls.length) = f.length - off - ls.length := by omega
        rw [h2]
        omega
      have hrec := ih ((f.drop off).take ls.length ++ ls.drop ls.length) (off + ls.length)
        (by rw [hlen]; exact hk) (by omega) (by rw [hlen]; exact hdiv)
      have htl : ((f.drop off).take ls.length).length = ls.length := by
        simp [List.length_take, List.length_drop]; omega
      simp only [hmin, hcond, if_false, hcast, hrec, Option.map_some']
      rw [List.take_left' htl]
      congr 1
      rw [← List.drop_drop]
      exact List.take_append_drop _ _

/-- C18: for every list `f`, buffer `ls` of length `k` and offset
`off ≥ 0`, `ListAt` returns `n = min k (len f - off)` (the difference cut off
at zero), a buffer whose first `n` places hold `f[off .. off+n)` and whose
other places are as before, and `io.EOF` exactly when `off ≥ len f` or
`n < k`, else nil.  Hence a reader that starts at offset 0 with a buffer of
fixed length `k > 0` and advances by the returned `n` until `io.EOF` collects
exactly the entries of `f`, in order, and is done within `len f / k + 1`
calls. -/
theorem ListAt_paging_reconstructs (f : listerat) :
    (∀ (ls : List FileInfo) (off : Nat),
        listerat.ListAt f ls (off : Int)
          = some ((f.drop off).take (min ls.length (f.length - off))
                ++ ls.drop (min ls.length (f.length - off)),
              min ls.length (f.length - off),
              if f.length ≤ off ∨ min ls.length (f.length - off) < ls.length then some .EOF
              else none)) ∧
      (∀ (ls : List FileInfo) (fuel : Nat), 0 < ls.length → f.length / ls.length < fuel →
        readPages f fuel ls 0 = some f) := by
  refine ⟨fun ls off => ListAt_of_nat f ls off, ?_⟩
  intro ls fuel hk hfuel
  have h := readPages_from f fuel ls 0 hk (Nat.zero_le _) (by simpa using hfuel)
  simpa using h

/-- C18 at a concrete input: three entries read with a buffer of length 2
are collected in two calls. -/
theorem ListAt_paging_reconstructs_witness :
    0 < ([{ Name := [] }, { Name := [] }] : List FileInfo).length ∧
      threeEntries.length / ([{ Name := [] }, { Name := [] }] : List FileInfo).length < 2 ∧
      readPages threeEntries 2 [{ Name := [] }, { Name := [] }] 0 = some threeEntries :=
  ⟨by decide, by decide,
    (ListAt_paging_reconstructs threeEntries).2 [{ Name := [] }, { Name := [] }] 2
      (by decide) (by decide)⟩

end SftpServer
